import Mathlib

/-!
Shallow embedding of the ryot workout-commit / personal-record engine
(`apps/backend/src/fitness/logic.rs`) and the import reconciliation pipeline
(`apps/backend/src/importer/mod.rs`, `apps/backend/src/importer/strong_app.rs`).

Rust `Decimal` values are modelled as rationals (`ℚ`), `usize`/`i32` as `Nat`/`Int`,
fallible operations as `Except`, and the database as an explicit state record that
every formerly-`async` operation threads through.
-/

namespace Ryot

/-! ### Fitness data model (`models/fitness.rs` shapes, as used by `logic.rs`) -/

/-- The measurement-type tag of an exercise (`database::ExerciseLot`). -/
inductive ExerciseLot
| duration
| distanceAndDuration
| repsAndWeight
deriving DecidableEq, Repr

/-- The user's unit system preference (`UserUnitSystem`). -/
inductive UserUnitSystem
| metric
| imperial
deriving DecidableEq, Repr

/-- Classification tag of a single set (`SetLot`); only `Normal` is exercised here. -/
inductive SetLot
| normal
| warmUp
| drop
| failure
deriving DecidableEq, Repr

/-- The personal-record categories (`WorkoutSetPersonalBest`). -/
inductive WorkoutSetPersonalBest
| weight
| oneRm
| volume
| reps
| time
| pace
deriving DecidableEq, Repr

/-- `WorkoutSetStatistic`: the optional measurement fields of one performed set. -/
structure WorkoutSetStatistic where
  duration : Option ℚ
  distance : Option ℚ
  reps : Option Nat
  weight : Option ℚ
deriving DecidableEq, Repr

/-- `Default::default()` for `WorkoutSetStatistic`: every field absent. -/
def WorkoutSetStatistic.default : WorkoutSetStatistic :=
  { duration := none, distance := none, reps := none, weight := none }

/-- One set as it arrives in a workout input (`UserWorkoutSetRecord`). -/
structure UserWorkoutSetRecord where
  statistic : WorkoutSetStatistic
  lot : SetLot
deriving DecidableEq, Repr

/-- One set as stored on a committed workout (`WorkoutSetRecord`). -/
structure WorkoutSetRecord where
  statistic : WorkoutSetStatistic
  lot : SetLot
  personal_bests : List WorkoutSetPersonalBest
deriving DecidableEq, Repr

/-! ### Unit normalizer and statistic sanitizer (`logic.rs` lines 65-98) -/

/-- `UserWorkoutSetRecord::translate_units` (logic.rs:66-78), acting on the
statistic that the Rust method mutates in place: `Metric` is a no-op, `Imperial`
multiplies `weight` by `0.45359` and `distance` by `1.60934`. -/
def translate_units (unit_type : UserUnitSystem) (s : WorkoutSetStatistic) :
    WorkoutSetStatistic :=
  match unit_type with
  | .metric => s
  | .imperial =>
    { s with
      weight := s.weight.map (fun w => w * (45359 / 100000 : ℚ)),
      distance := s.distance.map (fun d => d * (160934 / 100000 : ℚ)) }

/-- `UserWorkoutSetRecord::remove_invalids` (logic.rs:81-97): start from a default
(all-`none`) statistic and copy over only the fields valid for the exercise lot. -/
def remove_invalids (exercise_lot : ExerciseLot) (s : WorkoutSetStatistic) :
    WorkoutSetStatistic :=
  match exercise_lot with
  | .duration => { WorkoutSetStatistic.default with duration := s.duration }
  | .distanceAndDuration =>
    { WorkoutSetStatistic.default with distance := s.distance, duration := s.duration }
  | .repsAndWeight =>
    { WorkoutSetStatistic.default with reps := s.reps, weight := s.weight }

/-! ### Personal-record projections and comparison -/

/-- Modelled from the spec: `WorkoutSetRecord::get_personal_best` lives in
`models/fitness.rs`, which is not among the provided sources. Spec §4.3: "raw
weight for `Weight`, reps×weight for `Volume`, a one-rep-max formula for `OneRm`
(taken here in Brzycki form weight·36/(37−reps)), raw reps for `Reps`, raw
duration for `Time`; the `Pace` projection is distance-normalized duration". An
absent underlying field makes the projection absent. -/
def WorkoutSetRecord.get_personal_best (r : WorkoutSetRecord)
    (pb_type : WorkoutSetPersonalBest) : Option ℚ :=
  match pb_type with
  | .weight => r.statistic.weight
  | .reps => r.statistic.reps.map (fun n => (n : ℚ))
  | .time => r.statistic.duration
  | .volume =>
    match r.statistic.reps, r.statistic.weight with
    | some n, some w => some (w * (n : ℚ))
    | _, _ => none
  | .oneRm =>
    match r.statistic.reps, r.statistic.weight with
    | some n, some w => some (w * 36 / (37 - (n : ℚ)))
    | _, _ => none
  | .pace =>
    match r.statistic.distance, r.statistic.duration with
    | some dist, some dur => if dist = 0 then none else some (dur / dist)
    | _, _ => none

/-- `rust_decimal::Decimal::cmp`, i.e. the total order on decimals, modelled on `ℚ`. -/
def decCmp (x y : ℚ) : Ordering :=
  if x < y then .lt else if x = y then .eq else .gt

/-- The comparison the engine applies to two optional projections
(logic.rs:54-59, and Rust's derived `PartialOrd` on `Option<Decimal>` at
logic.rs:212): an absent value sorts strictly below any present one. -/
def optCmp : Option ℚ → Option ℚ → Ordering
  | none, none => .eq
  | none, some _ => .lt
  | some _, none => .gt
  | some x, some y => decCmp x y

/-- Rust's `>` on `Option<Decimal>` (logic.rs:212). -/
def optGt (a b : Option ℚ) : Bool := optCmp a b == .gt

/-- The record decision of logic.rs:211-219: with no incumbent stored record the
candidate wins outright; against an incumbent the candidate wins exactly when its
projection is strictly greater under `optGt`. -/
def is_new_record (candidate : Option ℚ) (incumbent : Option (Option ℚ)) : Bool :=
  match incumbent with
  | none => true
  | some inc => optGt candidate inc

/-- `get_index_of_highest_pb` (logic.rs:45-63): `Iterator::max_by` keeps the later
element on `Equal`, and the Rust code then takes the index of the *first* element
structurally equal to that maximum. Empty input yields `none` (the Rust caller
`unwrap`s, but only ever calls this on a non-empty slice). -/
def get_index_of_highest_pb (records : List WorkoutSetRecord)
    (pb_type : WorkoutSetPersonalBest) : Option Nat :=
  match records with
  | [] => none
  | r :: rs =>
    let max_el := rs.foldl
      (fun acc x =>
        if optCmp (acc.get_personal_best pb_type) (x.get_personal_best pb_type) == .gt
        then acc else x)
      r
    records.findIdx? (fun e => e = max_el)

/-- The display key of `get_best_set_index` (logic.rs:32-41): unweighted sum of
whichever of duration, distance, reps, weight are present. -/
def bestSetKey (r : WorkoutSetRecord) : ℚ :=
  r.statistic.duration.getD 0 + r.statistic.distance.getD 0
    + (r.statistic.reps.map (fun n => (n : ℚ))).getD 0 + r.statistic.weight.getD 0

/-- `get_best_set_index` (logic.rs:28-43): index of the set with the maximal
`bestSetKey`; `max_by_key` keeps the later element on ties. -/
def get_best_set_index (records : List WorkoutSetRecord) : Option Nat :=
  match records.enum with
  | [] => none
  | p :: ps =>
    some (ps.foldl (fun acc q => if bestSetKey q.2 < bestSetKey acc.2 then acc else q) p).1

/-! ### Bounded history -/

/-- Modelled from the spec: `LengthVec` comes from the `rs_utils` crate, which is
not among the provided sources. Spec §4.4: "`push_front` operation: prepend, then
truncate to capacity, dropping the oldest entries silently". -/
def pushFront {α : Type} (cap : Nat) (xs : List α) (x : α) : List α :=
  (x :: xs).take cap

/-- Replace the first element satisfying `p` by its image under `f`, the effect of
Rust's `iter_mut().find(p)` followed by a mutation (logic.rs:229). -/
def updateFirst {α : Type} (p : α → Bool) (f : α → α) : List α → List α
  | [] => []
  | x :: xs => if p x then f x :: xs else x :: updateFirst p f xs

/-! ### Association and workout rows -/

/-- One `(workout id, position)` interaction-history entry
(`UserToExerciseHistoryExtraInformation`). -/
structure UserToExerciseHistoryExtraInformation where
  workout_id : String
  idx : Nat
deriving DecidableEq, Repr

/-- A stored best-set record tagged with its origin (`ExerciseBestSetRecord`). -/
structure ExerciseBestSetRecord where
  workout_id : String
  set_idx : Nat
  data : WorkoutSetRecord
deriving DecidableEq, Repr

/-- One per-category PR list on an association
(`UserToExerciseBestSetExtraInformation`). -/
structure UserToExerciseBestSetExtraInformation where
  lot : WorkoutSetPersonalBest
  sets : List ExerciseBestSetRecord
deriving DecidableEq, Repr

/-- Running / lifetime totals (`WorkoutTotalMeasurement`). -/
structure WorkoutTotalMeasurement where
  personal_bests_achieved : Nat
  weight : ℚ
  reps : Nat
  distance : ℚ
  duration : ℚ
deriving DecidableEq, Repr

/-- `Default::default()` for the totals: everything zero. -/
def WorkoutTotalMeasurement.default : WorkoutTotalMeasurement :=
  { personal_bests_achieved := 0, weight := 0, reps := 0, distance := 0, duration := 0 }

/-- Modelled from the spec: the `AddAssign`/`Sum` impls for
`WorkoutTotalMeasurement` live in `models/fitness.rs`, not among the provided
sources; spec §4.5 step 3 sums reps, weight×reps, duration and distance and counts
achieved records, and step 6 says the lifetime aggregate is "summed in", so
addition is fieldwise. -/
def WorkoutTotalMeasurement.add (a b : WorkoutTotalMeasurement) :
    WorkoutTotalMeasurement :=
  { personal_bests_achieved := a.personal_bests_achieved + b.personal_bests_achieved,
    weight := a.weight + b.weight, reps := a.reps + b.reps,
    distance := a.distance + b.distance, duration := a.duration + b.duration }

instance : Add WorkoutTotalMeasurement := ⟨WorkoutTotalMeasurement.add⟩

/-- The JSON blob stored on a user–exercise association
(`UserToExerciseExtraInformation`). -/
structure UserToExerciseExtraInformation where
  history : List UserToExerciseHistoryExtraInformation
  lifetime_stats : WorkoutTotalMeasurement
  personal_bests : List UserToExerciseBestSetExtraInformation
deriving DecidableEq, Repr

/-- Empty extra information (stands in for the Rust `unwrap` of a column the
engine itself always populates). -/
def UserToExerciseExtraInformation.default : UserToExerciseExtraInformation :=
  { history := [], lifetime_stats := WorkoutTotalMeasurement.default, personal_bests := [] }

/-- A row of the `exercise` table, restricted to the columns `logic.rs` reads. -/
structure ExerciseRow where
  id : Nat
  name : String
  lot : ExerciseLot
deriving DecidableEq, Repr

/-- A row of `user_to_entity` restricted to the columns the fitness engine touches
(migration m20231017; `last_updated_on` carries no information for any claim). -/
structure AssocRow where
  user_id : Int
  exercise_id : Option Nat
  num_times_interacted : Int
  exercise_extra_information : Option UserToExerciseExtraInformation
deriving DecidableEq, Repr

/-- A processed exercise as embedded in a stored workout (`ProcessedExercise`;
asset payloads are opaque to every claim and are not carried). -/
structure ProcessedExercise where
  id : Nat
  name : String
  lot : ExerciseLot
  sets : List WorkoutSetRecord
  notes : List String
  rest_time : Option Nat
  total : WorkoutTotalMeasurement
deriving DecidableEq, Repr

/-- `WorkoutSummaryExercise`. -/
structure WorkoutSummaryExercise where
  num_sets : Nat
  name : String
  lot : ExerciseLot
  best_set : WorkoutSetRecord
deriving DecidableEq, Repr

/-- `WorkoutSummary`. -/
structure WorkoutSummary where
  total : WorkoutTotalMeasurement
  exercises : List WorkoutSummaryExercise
deriving DecidableEq, Repr

/-- `WorkoutInformation`. -/
structure WorkoutInformation where
  supersets : List Nat
  exercises : List ProcessedExercise
deriving DecidableEq, Repr

/-- A row of the `workout` table (`workout::Model`); timestamps as integers. -/
structure WorkoutModel where
  id : String
  start_time : Int
  end_time : Int
  user_id : Int
  name : String
  comment : Option String
  summary : WorkoutSummary
  information : WorkoutInformation
deriving DecidableEq, Repr

/-- The database slice the fitness engine reads and writes. -/
structure DB where
  exercises : List ExerciseRow
  associations : List AssocRow
  workouts : List WorkoutModel
deriving DecidableEq, Repr

/-- The workout input (`UserWorkoutInput`); asset payloads omitted as opaque. -/
structure UserExerciseInput where
  exercise_id : Nat
  sets : List UserWorkoutSetRecord
  notes : List String
  rest_time : Option Nat
deriving DecidableEq, Repr

/-- `UserWorkoutInput`. -/
structure UserWorkoutInput where
  name : String
  comment : Option String
  start_time : Int
  end_time : Int
  supersets : List Nat
  exercises : List UserExerciseInput
deriving DecidableEq, Repr

/-- The exercise-related user preferences read by the engine
(`UserExercisePreferences`): unit system and the history depth to retain. -/
structure UserExercisePreferences where
  unit_system : UserUnitSystem
  save_history : Nat
deriving DecidableEq, Repr

/-! ### Workout commit engine (`calculate_and_commit`, logic.rs:102-295) -/

/-- The per-set body of the loop at logic.rs:166-186: normalize units, sanitize,
accumulate the running totals, and append a `WorkoutSetRecord` with no achieved
records yet. -/
def processSetsStep (unit_system : UserUnitSystem) (lot : ExerciseLot)
    (acc : WorkoutTotalMeasurement × List WorkoutSetRecord)
    (set : UserWorkoutSetRecord) : WorkoutTotalMeasurement × List WorkoutSetRecord :=
  let stat := remove_invalids lot (translate_units unit_system set.statistic)
  let total := acc.1
  let total :=
    match stat.reps with
    | some r =>
      let total := { total with reps := total.reps + r }
      match stat.weight with
      | some w => { total with weight := total.weight + w * (r : ℚ) }
      | none => total
    | none => total
  let total :=
    match stat.duration with
    | some d => { total with duration := total.duration + d }
    | none => total
  let total :=
    match stat.distance with
    | some d => { total with distance := total.distance + d }
    | none => total
  (total, acc.2 ++ [{ statistic := stat, lot := set.lot, personal_bests := [] }])

/-- The PR categories applicable to an exercise lot (logic.rs:192-203). -/
def types_of_prs : ExerciseLot → List WorkoutSetPersonalBest
  | .duration => [.time]
  | .distanceAndDuration => [.pace, .time]
  | .repsAndWeight => [.weight, .oneRm, .volume, .reps]

/-- The stored incumbent the engine compares against (logic.rs:206-209): the first
entry for the category, then the first (top-ranked) record of its list. -/
def possibleRecord (personal_bests : List UserToExerciseBestSetExtraInformation)
    (best_type : WorkoutSetPersonalBest) : Option ExerciseBestSetRecord :=
  (personal_bests.find? (fun pb => pb.lot == best_type)).bind (fun record => record.sets.head?)

/-- One iteration of the record-tagging loop (logic.rs:204-220): find the set with
the highest in-workout projection, compare it against the stored incumbent, and on
a win tag the set and bump the achieved counter. The `get?` fallback covers the
Rust `unwrap`, unreachable because the engine only runs this on non-empty sets. -/
def tagStep (pbs0 : List UserToExerciseBestSetExtraInformation)
    (acc : List WorkoutSetRecord × WorkoutTotalMeasurement)
    (best_type : WorkoutSetPersonalBest) :
    List WorkoutSetRecord × WorkoutTotalMeasurement :=
  let sets := acc.1
  let total := acc.2
  let set_idx := (get_index_of_highest_pb sets best_type).getD 0
  let possible_record := possibleRecord pbs0 best_type
  match sets.get? set_idx with
  | none => (sets, total)
  | some set =>
    if is_new_record (set.get_personal_best best_type)
        (possible_record.map (fun r => r.data.get_personal_best best_type)) then
      (sets.set set_idx { set with personal_bests := set.personal_bests ++ [best_type] },
        { total with personal_bests_achieved := total.personal_bests_achieved + 1 })
    else (sets, total)

/-- One achieved record being persisted (logic.rs:223-242): mutate the first entry
for that category via a bounded `pushFront`, or create a fresh singleton entry. -/
def pushStep (id : String) (cap : Nat) (set_idx : Nat) (set : WorkoutSetRecord)
    (pbs : List UserToExerciseBestSetExtraInformation) (best : WorkoutSetPersonalBest) :
    List UserToExerciseBestSetExtraInformation :=
  let to_insert_record : ExerciseBestSetRecord :=
    { workout_id := id, set_idx := set_idx, data := set }
  if (pbs.find? (fun pb => pb.lot == best)).isSome then
    updateFirst (fun pb => pb.lot == best)
      (fun record => { record with sets := pushFront cap record.sets to_insert_record }) pbs
  else pbs ++ [{ lot := best, sets := [to_insert_record] }]

/-- The whole persisting loop over sets and their achieved records
(logic.rs:222-243). -/
def pushPhase (id : String) (cap : Nat) (sets : List WorkoutSetRecord)
    (pbs : List UserToExerciseBestSetExtraInformation) :
    List UserToExerciseBestSetExtraInformation :=
  sets.enum.foldl
    (fun pbs p => p.2.personal_bests.foldl (pushStep id cap p.1 p.2) pbs) pbs

/-- The (user, exercise) key filter of the association queries
(logic.rs:128-130 and 303-305). -/
def assocKeyFor (user_id : Int) (ex_id : Nat) : AssocRow → Bool := fun a =>
  a.user_id == user_id && a.exercise_id == some ex_id

/-- Load-or-create of the association row (logic.rs:128-165): on create, seed the
history and default stats with the database's counter default of 1; on update,
bump the counter and prepend the history item. -/
def upsertAssociation (user_id : Int) (ex_id : Nat)
    (history_item : UserToExerciseHistoryExtraInformation) (db : DB) :
    DB × AssocRow :=
  match db.associations.find? (assocKeyFor user_id ex_id) with
  | none =>
    let user_to_ex : AssocRow :=
      { user_id := user_id, exercise_id := some ex_id,
        num_times_interacted := 1,
        exercise_extra_information := some
          { history := [history_item],
            lifetime_stats := WorkoutTotalMeasurement.default,
            personal_bests := [] } }
    ({ db with associations := db.associations ++ [user_to_ex] }, user_to_ex)
  | some e =>
    let performed := e.num_times_interacted
    let extra_info0 :=
      e.exercise_extra_information.getD UserToExerciseExtraInformation.default
    let extra_info := { extra_info0 with history := history_item :: extra_info0.history }
    let updated : AssocRow :=
      { e with
        num_times_interacted := performed + 1,
        exercise_extra_information := some extra_info }
    ({ db with
        associations := updateFirst (assocKeyFor user_id ex_id) (fun _ => updated)
          db.associations },
      updated)

/-- The body of the per-exercise loop (logic.rs:115-265) minus the empty-sets
check, returning the updated database and, unless the exercise id is unknown
(logic.rs:120-123, skip), the processed exercise. -/
def processExercise (user_id : Int) (id : String)
    (preferences : UserExercisePreferences) (db : DB) (idx : Nat)
    (ex : UserExerciseInput) : DB × Option (ExerciseLot × ProcessedExercise) :=
  match db.exercises.find? (fun e => e.id == ex.exercise_id) with
  | none => (db, none)
  | some db_ex =>
    let assocKey : AssocRow → Bool := assocKeyFor user_id ex.exercise_id
    let history_item : UserToExerciseHistoryExtraInformation :=
      { workout_id := id, idx := idx }
    let step1 : DB × AssocRow := upsertAssociation user_id ex.exercise_id history_item db
    let db := step1.1
    let association := step1.2
    let setsTotal :=
      ex.sets.foldl (processSetsStep preferences.unit_system db_ex.lot)
        (WorkoutTotalMeasurement.default, [])
    let pbs0 :=
      (association.exercise_extra_information.getD
        UserToExerciseExtraInformation.default).personal_bests
    let tagged := (types_of_prs db_ex.lot).foldl (tagStep pbs0) (setsTotal.2, setsTotal.1)
    let sets := tagged.1
    let total := tagged.2
    let personal_bests := pushPhase id preferences.save_history sets pbs0
    let extra0 :=
      association.exercise_extra_information.getD UserToExerciseExtraInformation.default
    let extra :=
      { extra0 with
        lifetime_stats := extra0.lifetime_stats + total,
        personal_bests := personal_bests }
    let newAssociations :=
      updateFirst assocKey
        (fun a => { a with exercise_extra_information := some extra }) db.associations
    let db := { db with associations := newAssociations }
    (db,
      some (db_ex.lot,
        { id := ex.exercise_id, name := db_ex.name, lot := db_ex.lot, sets := sets,
          notes := ex.notes, rest_time := ex.rest_time, total := total }))

/-- Fallback set used to model the panicking index `e.sets[...]` at logic.rs:282,
unreachable because every processed exercise has at least one set. -/
def fallbackSet : WorkoutSetRecord :=
  { statistic := WorkoutSetStatistic.default, lot := .normal, personal_bests := [] }

/-- The exercise loop of `calculate_and_commit` followed by the workout insert
(logic.rs:115-294), with the accumulators of the Rust function made explicit.
A zero-set exercise aborts right where the Rust code `bail!`s, keeping whatever
association writes earlier iterations performed. -/
def commitGo (user_id : Int) (id : String) (preferences : UserExercisePreferences)
    (input : UserWorkoutInput) (db : DB)
    (exercises : List (ExerciseLot × ProcessedExercise))
    (workout_totals : List WorkoutTotalMeasurement) (idx : Nat) :
    List UserExerciseInput → DB × Except String String
  | [] =>
    let summary_total := workout_totals.foldl (· + ·) WorkoutTotalMeasurement.default
    let model : WorkoutModel :=
      { id := id, start_time := input.start_time, end_time := input.end_time,
        user_id := user_id, name := input.name, comment := input.comment,
        summary :=
          { total := summary_total,
            exercises := exercises.map (fun p =>
              { num_sets := p.2.sets.length, name := p.2.name, lot := p.1,
                best_set :=
                  (p.2.sets.get? ((get_best_set_index p.2.sets).getD 0)).getD fallbackSet }) },
        information :=
          { supersets := input.supersets, exercises := exercises.map (fun p => p.2) } }
    ({ db with workouts := db.workouts ++ [model] }, .ok id)
  | ex :: rest =>
    if ex.sets.length = 0 then (db, .error "This exercise has no associated sets")
    else
      match processExercise user_id id preferences db idx ex with
      | (db, none) =>
        commitGo user_id id preferences input db exercises workout_totals (idx + 1) rest
      | (db, some pe) =>
        commitGo user_id id preferences input db (exercises ++ [pe])
          (workout_totals ++ [pe.2.total]) (idx + 1) rest

/-- `UserWorkoutInput::calculate_and_commit` (logic.rs:102-295), returning the
database after the run together with the Rust `Result`: partial writes performed
before a mid-loop `bail!` survive, exactly as with the non-transactional original. -/
def calculate_and_commit (input : UserWorkoutInput) (user_id : Int) (db : DB)
    (id : String) (preferences : UserExercisePreferences) :
    DB × Except String String :=
  if input.exercises.length = 0 then
    (db, .error "This workout has no associated exercises")
  else commitGo user_id id preferences input db [] [] 0 input.exercises

/-- The association mutation `delete_existing` applies for the exercise at
position `idx` of the deleted workout (logic.rs:309-321): decrement the counter,
remove the matching `(workout id, idx)` history entry if present, keep lifetime
stats and the PB table as they are. -/
def deleteAssocUpdate (w : WorkoutModel) (idx : Nat) (association : AssocRow) : AssocRow :=
  let performed := association.num_times_interacted
  let ei0 :=
    association.exercise_extra_information.getD UserToExerciseExtraInformation.default
  let ei :=
    match ei0.history.findIdx? (fun e => e.workout_id == w.id && e.idx == idx) with
    | some ex_idx => { ei0 with history := ei0.history.eraseIdx ex_idx }
    | none => ei0
  { association with
    num_times_interacted := performed - 1,
    exercise_extra_information := some ei }

/-- `workout::Model::delete_existing` (logic.rs:298-325): per recorded exercise,
apply `deleteAssocUpdate` to the association row, then delete the workout row.
The Rust code `unwrap`s the association lookup; a missing row (which would panic
there) is left alone here. -/
def delete_existing (w : WorkoutModel) (db : DB) (user_id : Int) : DB :=
  let db := (w.information.exercises.enum).foldl
    (fun db p =>
      let newAssociations :=
        updateFirst
          (fun a => a.user_id == user_id && a.exercise_id == some p.2.id)
          (deleteAssocUpdate w p.1)
          db.associations
      { db with associations := newAssociations })
    db
  { db with workouts := db.workouts.filter (fun m => !(m.id == w.id)) }

/-! ### Import pipeline (`importer/mod.rs`) -/

/-- `database::MetadataLot`, as far as the importer passes it through. -/
inductive MetadataLot
| audioBook
| anime
| book
| podcast
| manga
| movie
| show
| videoGame
deriving DecidableEq, Repr

/-- The steps in which media importing can fail (`ImportFailStep`, mod.rs:121-133). -/
inductive ImportFailStep
| itemDetailsFromSource
| mediaDetailsFromProvider
| inputTransformation
| seenHistoryConversion
| reviewConversion
deriving DecidableEq, Repr

/-- `ImportFailedItem` (mod.rs:138-143). -/
structure ImportFailedItem where
  lot : MetadataLot
  step : ImportFailStep
  identifier : String
  error : Option String
deriving DecidableEq, Repr

/-- `ImportDetails` (mod.rs:146-148). -/
structure ImportDetails where
  total : Nat
deriving DecidableEq, Repr

/-- `ImportResultResponse` (mod.rs:161-164). -/
structure ImportResultResponse where
  import_details : ImportDetails
  failed_items : List ImportFailedItem
deriving DecidableEq, Repr

/-- One seen-history entry of a media item, restricted to the fields the importer
reads (`ImportOrExportMediaItemSeen`). -/
structure ImportSeenItem where
  progress : Option Nat
  ended_on : Option Int
deriving DecidableEq, Repr

/-- One review entry of a media item, restricted to the fields the importer reads
(`ImportOrExportItemRating`): an optional rating and optional review text. -/
structure ImportReviewItem where
  rating : Option ℚ
  review : Option String
deriving DecidableEq, Repr

/-- `ImportOrExportItemIdentifier` (mod.rs:334-342): either an external identifier
that needs a provider lookup or an already-resolved payload (identified here by
its external key, the only part any claim inspects). -/
inductive ImportOrExportItemIdentifier
| needsDetails (identifier : String)
| alreadyFilled (identifier : String)
deriving DecidableEq, Repr

/-- A canonical media item (`ImportOrExportMediaItem`), restricted to the fields
`import_media` reads. The Rust code `unwrap`s `internal_identifier`, so it is
non-optional here. -/
structure ImportMediaItem where
  lot : MetadataLot
  source_id : String
  internal_identifier : ImportOrExportItemIdentifier
  seen_history : List ImportSeenItem
  reviews : List ImportReviewItem
  collections : List String
deriving DecidableEq, Repr

/-- A collection creation request (`CreateOrUpdateCollectionInput`), by name. -/
structure CreateOrUpdateCollectionInput where
  name : String
deriving DecidableEq, Repr

/-- The canonical adapter output (`ImportResult`, mod.rs:151-156). -/
structure ImportResult where
  collections : List CreateOrUpdateCollectionInput
  media : List ImportMediaItem
  failed_items : List ImportFailedItem
  workouts : List UserWorkoutInput
deriving Repr

/-- The user's review-scale preference (`UserReviewScale`). -/
inductive UserReviewScale
| outOfFive
| outOfHundred
deriving DecidableEq, Repr

/-- The richness key of `import_media` (mod.rs:318-320): seen-history plus review
plus collection-membership counts. -/
def richness (m : ImportMediaItem) : Nat :=
  m.seen_history.length + m.reviews.length + m.collections.length

/-- The reordering of mod.rs:315-322: `sorted_unstable_by_key(richness)` followed
by `rev()`, embedded as a merge sort on the ascending key followed by a reverse
(the Rust sort is unstable, so any sorted permutation is a faithful model). -/
def sortMediaDesc (media : List ImportMediaItem) : List ImportMediaItem :=
  (media.mergeSort (fun a b => richness a ≤ richness b)).reverse

/-- Visible effects of one `import_media` run, in execution order. -/
inductive ImportEvent
| collectionCreated (name : String)
| mediaCommitted (source_id : String) (metadata_id : Nat)
| seenApplied (metadata_id : Nat) (progress : Nat)
| reviewPosted (metadata_id : Nat) (rating : Option ℚ)
| addedToCollection (name : String) (metadata_id : Nat)
deriving DecidableEq, Repr

/-- The external collaborators `import_media` calls (spec §6), as explicit
oracles: catalog resolution (`commit_media` / `commit_media_internal`), progress
updates, review posting, and the collection services. `add_entity_to_collection`
results are discarded by the Rust code (`.ok()`), so only its success is recorded
in the trace. -/
structure MediaOracles where
  commit_media : ImportOrExportItemIdentifier → Except String Nat
  progress_update : Nat → Option Nat → Except String Unit
  post_review : Nat → Option ℚ → Option String → Except String Unit
  create_or_update_collection : String → Except String Unit
  add_entity_to_collection : String → Nat → Except String Unit

/-- State threaded through the media loop: accumulated failed items (the Rust code
pushes onto `import.failed_items`) and the event trace. -/
structure MediaRunState where
  failed_items : List ImportFailedItem
  trace : List ImportEvent
deriving DecidableEq, Repr

/-- One seen-history entry being applied (mod.rs:357-387): absent progress
defaults to 100; a `progress_update` failure is recorded as
`SeenHistoryConversion` and the loop continues. -/
def seenStep (o : MediaOracles) (lot : MetadataLot) (source_id : String)
    (metadata_id : Nat) (st : MediaRunState) (seen : ImportSeenItem) : MediaRunState :=
  let progress := match seen.progress with
    | some p => p
    | none => 100
  match o.progress_update metadata_id (some progress) with
  | .ok _ => { st with trace := st.trace ++ [.seenApplied metadata_id progress] }
  | .error e => { st with failed_items := st.failed_items ++
      [{ lot := lot, step := .seenHistoryConversion,
         identifier := source_id, error := some e }] }

/-- One review being posted (mod.rs:388-426): empty reviews are skipped, ratings
are divided by 20 on the out-of-five scale, and a `post_review` failure is
recorded as `ReviewConversion`. -/
def reviewStep (o : MediaOracles) (review_scale : UserReviewScale) (lot : MetadataLot)
    (source_id : String) (metadata_id : Nat) (st : MediaRunState)
    (review : ImportReviewItem) : MediaRunState :=
  if review.review.isNone && review.rating.isNone then st
  else
    let rating := match review_scale with
      | .outOfFive => review.rating.map (fun r => r / 20)
      | .outOfHundred => review.rating
    match o.post_review metadata_id rating review.review with
    | .ok _ => { st with trace := st.trace ++ [.reviewPosted metadata_id rating] }
    | .error e => { st with failed_items := st.failed_items ++
        [{ lot := lot, step := .reviewConversion,
           identifier := source_id, error := some e }] }

/-- One per-item collection membership (mod.rs:427-448): collection creation
propagates its error via `?`, membership addition is best-effort (`.ok()`). -/
def itemCollectionStep (o : MediaOracles) (metadata_id : Nat) (st : MediaRunState)
    (col : String) : Except String MediaRunState :=
  match o.create_or_update_collection col with
  | .error e => .error e
  | .ok _ =>
    let st := { st with trace := st.trace ++ [.collectionCreated col] }
    match o.add_entity_to_collection col metadata_id with
    | .ok _ => .ok { st with trace := st.trace ++ [.addedToCollection col metadata_id] }
    | .error _ => .ok st

/-- The body of the per-item loop of `import_media` (mod.rs:328-458): resolve the
catalog entry (a failure is recorded as `MediaDetailsFromProvider` and skips the
whole item), then apply seen history, reviews and collection memberships. -/
def importMediaItemStep (o : MediaOracles) (review_scale : UserReviewScale)
    (st : MediaRunState) (item : ImportMediaItem) : Except String MediaRunState :=
  match o.commit_media item.internal_identifier with
  | .error e =>
    .ok { st with failed_items := st.failed_items ++
      [{ lot := item.lot, step := .mediaDetailsFromProvider,
         identifier := item.source_id, error := some e }] }
  | .ok metadata_id =>
    let st := { st with trace := st.trace ++ [.mediaCommitted item.source_id metadata_id] }
    let st := item.seen_history.foldl (seenStep o item.lot item.source_id metadata_id) st
    let st := item.reviews.foldl
      (reviewStep o review_scale item.lot item.source_id metadata_id) st
    item.collections.foldlM (itemCollectionStep o metadata_id) st

/-- One requested collection being materialized (mod.rs:323-327); the error
propagates via `?`. -/
def requestedCollectionStep (o : MediaOracles) (st : MediaRunState)
    (col : CreateOrUpdateCollectionInput) : Except String MediaRunState :=
  match o.create_or_update_collection col.name with
  | .error e => .error e
  | .ok _ => .ok { st with trace := st.trace ++ [.collectionCreated col.name] }

/-- `import_media` after the adapter call (mod.rs:311-476): sort by descending
richness, materialize the requested collections (errors propagate via `?`), run
the per-item loop, and report `total` and the accumulated failed items. -/
def import_media_run (o : MediaOracles) (review_scale : UserReviewScale)
    (imp : ImportResult) : Except String (MediaRunState × ImportResultResponse) := do
  let media := sortMediaDesc imp.media
  let st : MediaRunState := { failed_items := imp.failed_items, trace := [] }
  let st ← imp.collections.foldlM (requestedCollectionStep o) st
  let st ← media.foldlM (importMediaItemStep o review_scale) st
  .ok (st, { import_details := { total := media.length }, failed_items := st.failed_items })

/-! ### Import job lifecycle (`importer/mod.rs`) -/

/-- A row of `import_report` restricted to what the lifecycle code touches;
times are integer seconds. -/
structure ImportReportRow where
  id : Nat
  user_id : Int
  started_on : Int
  finished_on : Option Int
  success : Option Bool
  details : Option ImportResultResponse
deriving DecidableEq, Repr

/-- `finish_import_job` (mod.rs:493-504): set the finish time, the details and
`success = Some(true)`. -/
def finish_import_job (now : Int) (job : ImportReportRow)
    (details : ImportResultResponse) : ImportReportRow :=
  { job with finished_on := some now, details := some details, success := some true }

/-- The loop body of `invalidate_import_jobs` (mod.rs:237-243): a row passing the
`Success.is_null()` filter whose start lies more than 24 hours in the past gets
`success = Some(false)`; every other row is untouched. -/
def invalidateStep (now : Int) (job : ImportReportRow) : ImportReportRow :=
  if job.success.isNone && decide (now - job.started_on > 24 * 3600) then
    { job with success := some false }
  else job

/-- `invalidate_import_jobs` (mod.rs:232-246): apply `invalidateStep` to every
row. The repeated `Utc::now()` of the Rust loop is modelled as a single instant. -/
def invalidate_import_jobs (now : Int) (jobs : List ImportReportRow) :
    List ImportReportRow :=
  jobs.map (invalidateStep now)

/-- `import_media` including the job record lifecycle (mod.rs:291-476): the job is
created at dispatch and finished with `success = Some(true)` whenever the media
loop completes; if the run aborts (collection creation failing via `?`), the job
row is left untouched for the sweep. -/
def import_media_job (o : MediaOracles) (review_scale : UserReviewScale)
    (imp : ImportResult) (job : ImportReportRow) (now : Int) :
    ImportReportRow × Option (MediaRunState × ImportResultResponse) :=
  match import_media_run o review_scale imp with
  | .ok out => (finish_import_job now job out.2, some out)
  | .error _ => (job, none)

/-! ### Strong-app adapter (`importer/strong_app.rs`) -/

/-- One CSV row of a Strong export (`Entry`, strong_app.rs:25-42), restricted to
the measurement fields. -/
structure StrongEntry where
  date : String
  notes : Option String
  weight : Option ℚ
  reps : Option Nat
  distance : Option ℚ
  seconds : Option ℚ
  set_order : Nat
  exercise_name : String
deriving DecidableEq, Repr

/-- The per-row set construction of `strong_app::import` (strong_app.rs:75-83):
seconds become minutes via `checked_div` (which only fails on a zero divisor,
impossible here), weights of exactly `0` are replaced by `1`, everything else
passes through. -/
def strongSetRecord (entry : StrongEntry) : UserWorkoutSetRecord :=
  { statistic :=
      { duration := entry.seconds.map (fun r => r / 60),
        distance := entry.distance,
        reps := entry.reps,
        weight := entry.weight.map (fun d => if d = 0 then 1 else d) },
    lot := .normal }

/-! ### Concrete scenario data shared by several claims -/

/-- A catalog with one reps-and-weight exercise. -/
def exerciseBench : ExerciseRow := { id := 1, name := "Bench press", lot := .repsAndWeight }

/-- A fresh database: the catalog above, no associations, no workouts. -/
def dbBench : DB := { exercises := [exerciseBench], associations := [], workouts := [] }

/-- The spec's scenario set: reps = 10, weight = 50. -/
def setReps10Weight50 : UserWorkoutSetRecord :=
  { statistic := { duration := none, distance := none, reps := some 10, weight := some 50 },
    lot := .normal }

/-- A workout input holding exactly the scenario set on the bench exercise. -/
def benchInput : UserWorkoutInput :=
  { name := "Push day", comment := none, start_time := 0, end_time := 3600,
    supersets := [],
    exercises := [{ exercise_id := 1, sets := [setReps10Weight50], notes := [], rest_time := none }] }

/-- Metric preferences with a given history capacity. -/
def metricPrefs (cap : Nat) : UserExercisePreferences :=
  { unit_system := .metric, save_history := cap }

/-- First commit of the scenario workout onto the fresh database. -/
def benchRun1 : DB × Except String String :=
  calculate_and_commit benchInput 1 dbBench "w1" (metricPrefs 3)

/-- Second commit of an identical workout onto the resulting database. -/
def benchRun2 : DB × Except String String :=
  calculate_and_commit benchInput 1 benchRun1.1 "w2" (metricPrefs 3)

/-- Same two commits with history capacity 1. -/
def capRun1 : DB × Except String String :=
  calculate_and_commit benchInput 1 dbBench "w1" (metricPrefs 1)

/-- Second capacity-1 commit. -/
def capRun2 : DB × Except String String :=
  calculate_and_commit benchInput 1 capRun1.1 "w2" (metricPrefs 1)

/-- A workout input with no exercises at all. -/
def emptyInput : UserWorkoutInput :=
  { name := "Empty", comment := none, start_time := 0, end_time := 0,
    supersets := [], exercises := [] }

/-- A workout whose first exercise is fine and whose second has zero sets. -/
def badInput : UserWorkoutInput :=
  { name := "Push day", comment := none, start_time := 0, end_time := 3600,
    supersets := [],
    exercises :=
      [{ exercise_id := 1, sets := [setReps10Weight50], notes := [], rest_time := none },
       { exercise_id := 2, sets := [], notes := [], rest_time := none }] }

/-- Committing `badInput` on the fresh database. -/
def badRun : DB × Except String String :=
  calculate_and_commit badInput 1 dbBench "w1" (metricPrefs 3)

/-- A concrete two-item, one-collection batch for the C8 witness. -/
def c8item1 : ImportMediaItem :=
  { lot := .movie, source_id := "id1", internal_identifier := .needsDetails "tt1",
    seen_history := [{ progress := some 50, ended_on := none }], reviews := [],
    collections := [] }

/-- A sparser media item. -/
def c8item2 : ImportMediaItem :=
  { lot := .movie, source_id := "id2", internal_identifier := .needsDetails "tt2",
    seen_history := [], reviews := [], collections := [] }

/-- The batch, listing the sparse item first so sorting has work to do. -/
def c8imp : ImportResult :=
  { collections := [{ name := "Watched" }], media := [c8item2, c8item1],
    failed_items := [], workouts := [] }

/-- Always-succeeding oracles. -/
def okOracles : MediaOracles :=
  { commit_media := fun _ => .ok 7, progress_update := fun _ _ => .ok (),
    post_review := fun _ _ _ => .ok (), create_or_update_collection := fun _ => .ok (),
    add_entity_to_collection := fun _ _ => .ok () }

/-- The outcome of the concrete C8 run. -/
def c8out : MediaRunState × ImportResultResponse :=
  match import_media_run okOracles .outOfHundred c8imp with
  | .ok p => p
  | .error _ => ⟨{ failed_items := [], trace := [] }, ⟨⟨0⟩, []⟩⟩

/-- First scenario item: richest (two seen entries). -/
def c4item1 : ImportMediaItem :=
  { lot := .movie, source_id := "id1", internal_identifier := .needsDetails "tt1",
    seen_history := [{ progress := some 40, ended_on := none },
                     { progress := none, ended_on := none }],
    reviews := [], collections := [] }

/-- Second scenario item, whose catalog resolution will fail. -/
def c4item2 : ImportMediaItem :=
  { lot := .movie, source_id := "id2", internal_identifier := .needsDetails "tt2",
    seen_history := [{ progress := some 10, ended_on := none }],
    reviews := [], collections := [] }

/-- Third scenario item: sparsest. -/
def c4item3 : ImportMediaItem :=
  { lot := .movie, source_id := "id3", internal_identifier := .needsDetails "tt3",
    seen_history := [], reviews := [], collections := [] }

/-- The three-item batch of the C4 scenario. -/
def c4imp : ImportResult :=
  { collections := [], media := [c4item1, c4item2, c4item3],
    failed_items := [], workouts := [] }

/-- Oracles that fail catalog resolution exactly for the second item. -/
def c4oracle : MediaOracles :=
  { commit_media := fun id =>
      if id = .needsDetails "tt2" then .error "provider failure" else .ok 7,
    progress_update := fun _ _ => .ok (),
    post_review := fun _ _ _ => .ok (),
    create_or_update_collection := fun _ => .ok (),
    add_entity_to_collection := fun _ _ => .ok () }

/-- A fresh job row for the C4 scenario. -/
def c4job0 : ImportReportRow :=
  { id := 1, user_id := 1, started_on := 0, finished_on := none,
    success := none, details := none }

/-- Outcome of the concrete C4 run. -/
def c4out : MediaRunState × ImportResultResponse :=
  match import_media_run c4oracle .outOfHundred c4imp with
  | .ok p => p
  | .error _ => ⟨{ failed_items := [], trace := [] }, ⟨⟨0⟩, []⟩⟩

/-- A stored best set for the witness, referencing the workout about to be
deleted. -/
def c6pbRecord : ExerciseBestSetRecord :=
  { workout_id := "w9", set_idx := 0,
    data := { statistic := { duration := none, distance := none, reps := some 10,
                             weight := some 50 },
              lot := .normal, personal_bests := [.weight] } }

/-- Association extra information for the witness: two history entries and a PB
table still referencing workout `w9`. -/
def c6ei : UserToExerciseExtraInformation :=
  { history := [{ workout_id := "w9", idx := 0 }, { workout_id := "w1", idx := 0 }],
    lifetime_stats := { personal_bests_achieved := 1, weight := 500, reps := 10,
                        distance := 0, duration := 0 },
    personal_bests := [{ lot := .weight, sets := [c6pbRecord] }] }

/-- The association row of the witness. -/
def c6assoc : AssocRow :=
  { user_id := 1, exercise_id := some 1, num_times_interacted := 3,
    exercise_extra_information := some c6ei }

/-- The workout being deleted in the witness. -/
def c6w : WorkoutModel :=
  { id := "w9", start_time := 0, end_time := 3600, user_id := 1, name := "Push day",
    comment := none,
    summary := { total := WorkoutTotalMeasurement.default, exercises := [] },
    information :=
      { supersets := [],
        exercises := [{ id := 1, name := "Bench press", lot := .repsAndWeight,
                        sets := [], notes := [], rest_time := none,
                        total := WorkoutTotalMeasurement.default }] } }

/-- The database of the witness. -/
def c6db : DB :=
  { exercises := [exerciseBench], associations := [c6assoc], workouts := [c6w] }

/-! ### C9: the stored PB lists keep their best record first -/

/-- Projection of the first (top-ranked) stored record of a PR list. -/
def headProj (t : WorkoutSetPersonalBest) (sets : List ExerciseBestSetRecord) :
    Option ℚ :=
  match sets.head? with
  | some h => h.data.get_personal_best t
  | none => none

/-- The implicit invariant for one per-category entry: no stored record's
projection strictly exceeds the first record's projection. -/
def pbEntryInvariant (e : UserToExerciseBestSetExtraInformation) : Prop :=
  ∀ r ∈ e.sets, optGt (r.data.get_personal_best e.lot) (headProj e.lot e.sets) = false

/-- The invariant over a whole PB table. -/
def pbInvariant (pbs : List UserToExerciseBestSetExtraInformation) : Prop :=
  ∀ e ∈ pbs, pbEntryInvariant e

/-- The invariant over every association row of the database. -/
def dbPbInvariant (db : DB) : Prop :=
  ∀ a ∈ db.associations, ∀ ei, a.exercise_extra_information = some ei →
    pbInvariant ei.personal_bests

/-- The comparison the tag loop establishes for a pushed candidate: it beats the
stored incumbent of its category (or none exists). -/
def pushGuard (pbs : List UserToExerciseBestSetExtraInformation)
    (s : WorkoutSetRecord) (b : WorkoutSetPersonalBest) : Prop :=
  is_new_record (s.get_personal_best b)
    ((possibleRecord pbs b).map (fun r => r.data.get_personal_best b)) = true

end Ryot

unseal Rat.mul Rat.add Rat.sub Rat.inv List.merge List.mergeSort

namespace Ryot

/-! ### Helper lemmas on the comparison functions -/

theorem decCmp_eq_gt_iff (x y : ℚ) : decCmp x y = .gt ↔ y < x := by
  unfold decCmp
  split_ifs with h1 h2
  · simp only [reduceCtorEq, false_iff, not_lt]
    exact le_of_lt h1
  · simp only [reduceCtorEq, false_iff, not_lt]
    exact le_of_eq h2
  · simp only [true_iff]
    exact lt_of_le_of_ne (not_lt.mp h1) (fun h => h2 h.symm)

theorem ordering_beq_gt (o : Ordering) : (o == Ordering.gt) = true ↔ o = .gt := by
  cases o <;> decide

theorem optGt_eq_true_iff (a b : Option ℚ) :
    optGt a b = true ↔ ∃ c, a = some c ∧ (b = none ∨ ∃ i, b = some i ∧ i < c) := by
  cases a with
  | none => cases b <;> simp [optGt, optCmp, ordering_beq_gt]
  | some c =>
    cases b with
    | none => simp [optGt, optCmp, ordering_beq_gt]
    | some i => simp [optGt, optCmp, ordering_beq_gt, decCmp_eq_gt_iff]

theorem optGt_self_eq_false (v : Option ℚ) : optGt v v = false := by
  cases v with
  | none => rfl
  | some x =>
    have h : decCmp x x = .eq := by simp [decCmp]
    show (decCmp x x == Ordering.gt) = false
    rw [h]
    rfl

theorem invalidateStep_flagged (now : Int) (job : ImportReportRow)
    (hsucc : job.success = none) (hstale : now - job.started_on > 24 * 3600) :
    invalidateStep now job = { job with success := some false } := by
  have hc : (job.success.isNone && decide (now - job.started_on > 24 * 3600)) = true := by
    rw [hsucc]
    simp only [Option.isNone_none, Bool.true_and, decide_eq_true_eq]
    omega
  unfold invalidateStep
  rw [if_pos hc]

theorem invalidateStep_untouched (now : Int) (job : ImportReportRow)
    (h : job.success ≠ none ∨ ¬ now - job.started_on > 24 * 3600) :
    invalidateStep now job = job := by
  have hc : (job.success.isNone && decide (now - job.started_on > 24 * 3600)) = false := by
    cases hs : job.success with
    | some b => simp [hs]
    | none =>
      rcases h with hsucc | hstale
      · exact absurd hs hsucc
      · simp only [hs, Option.isNone_none, Bool.true_and, decide_eq_false_iff_not]
        exact hstale
  unfold invalidateStep
  rw [if_neg]
  rw [hc]
  simp

theorem invalidateStep_idem (now : Int) (job : ImportReportRow) :
    invalidateStep now (invalidateStep now job) = invalidateStep now job := by
  by_cases hsucc : job.success = none
  · by_cases hstale : now - job.started_on > 24 * 3600
    · rw [invalidateStep_flagged now job hsucc hstale]
      exact invalidateStep_untouched now _ (Or.inl (by simp))
    · rw [invalidateStep_untouched now job (Or.inr hstale)]
      exact invalidateStep_untouched now job (Or.inr hstale)
  · rw [invalidateStep_untouched now job (Or.inl hsucc)]
    exact invalidateStep_untouched now job (Or.inl hsucc)

/-! ### Claim theorems -/

/-- C2: the commit engine's per-category record decision. With no incumbent stored
record the candidate always achieves the record; against an incumbent it does so
exactly when its projection is present and strictly exceeds the incumbent's
projection under the option order in which absent sorts strictly below present —
so an absent candidate projection never replaces a present incumbent — and an
exact tie keeps the previously stored record. Concretely: a RepsAndWeight set with
reps = 10, weight = 50 and no prior stored record achieves Weight, OneRm, Volume
and Reps on the first commit, and an identical set committed afterwards (an exact
tie in every category) achieves none. -/
theorem C2_record_decision :
    (∀ cand : Option ℚ, is_new_record cand none = true) ∧
    (∀ cand inc : Option ℚ, is_new_record cand (some inc) = true ↔
      ∃ c, cand = some c ∧ (inc = none ∨ ∃ i, inc = some i ∧ i < c)) ∧
    (∀ v : Option ℚ, is_new_record v (some v) = false) ∧
    benchRun1.1.workouts.map (fun w => w.information.exercises.map
        (fun e => e.sets.map (fun s => s.personal_bests)))
      = [[[[.weight, .oneRm, .volume, .reps]]]] ∧
    benchRun2.1.workouts.map (fun w => w.information.exercises.map
        (fun e => e.sets.map (fun s => s.personal_bests)))
      = [[[[.weight, .oneRm, .volume, .reps]]], [[[]]]] := by
  refine ⟨fun cand => rfl, ?_, ?_, by decide, by decide⟩
  · intro cand inc
    exact optGt_eq_true_iff cand inc
  · intro v
    exact optGt_self_eq_false v

/-- C3 counterexample: with history capacity 1, committing the same exercise twice
leaves the per-exercise interaction history at length 2 — the commit engine
prepends to the interaction history without ever truncating it (logic.rs:158), so
that list exceeds the configured capacity. -/
theorem C3_history_exceeds_capacity :
    (metricPrefs 1).save_history = 1 ∧
    capRun2.1.associations.map
      (fun a => (a.exercise_extra_information.getD .default).history.length) = [2] :=
  ⟨rfl, by decide⟩

/-- C3 (amended): every list maintained through the bounded `pushFront` — in this
code base, the per-category PR set lists — never exceeds the configured capacity
after any sequence of pushes, and eviction drops the oldest entries (what is kept
is an initial segment of the newly-prepended list). The per-exercise interaction
history, by contrast, is prepended to without truncation and can exceed the
capacity. -/
theorem C3_pushFront_bounded {α : Type} (cap : Nat) (x : α) (xs : List α) :
    (pushFront cap xs x).length ≤ cap ∧
    (∃ evicted, x :: xs = pushFront cap xs x ++ evicted) ∧
    (∀ init pushes : List α, init.length ≤ cap →
      (pushes.foldl (pushFront cap) init).length ≤ cap) := by
  refine ⟨?_, ⟨(x :: xs).drop cap, (List.take_append_drop cap (x :: xs)).symm⟩, ?_⟩
  · simp [pushFront]
  · intro init pushes
    induction pushes generalizing init with
    | nil => exact fun h => h
    | cons p ps ih =>
      intro _
      exact ih _ (by simp [pushFront])

/-- Witness for `C3_pushFront_bounded` at capacity 1. -/
theorem C3_pushFront_bounded_witness :
    (([5, 6, 7].foldl (pushFront 1) ([] : List Nat)).length ≤ 1) :=
  (C3_pushFront_bounded 1 2 [0, 1]).2.2 [] [5, 6, 7] (by decide)

/-- C5: the stale-job sweep flags exactly the jobs with no success flag whose
start lies strictly more than 24 hours in the past, leaves every other row
untouched, and is idempotent (re-running never re-flags an already-resolved job).
In particular a success-less job started 25 hours ago is flagged failed and one
started 1 hour ago is untouched. -/
theorem C5_invalidate_stale_jobs (now : Int) (jobs : List ImportReportRow) :
    (invalidate_import_jobs now jobs).length = jobs.length ∧
    (∀ (i : Nat) (job : ImportReportRow), jobs[i]? = some job → job.success = none →
      now - job.started_on > 24 * 3600 →
      (invalidate_import_jobs now jobs)[i]? = some { job with success := some false }) ∧
    (∀ (i : Nat) (job : ImportReportRow), jobs[i]? = some job →
      (job.success ≠ none ∨ ¬ now - job.started_on > 24 * 3600) →
      (invalidate_import_jobs now jobs)[i]? = some job) ∧
    invalidate_import_jobs now (invalidate_import_jobs now jobs)
      = invalidate_import_jobs now jobs ∧
    (∀ j25 j1 : ImportReportRow, j25.success = none → j1.success = none →
      j25.started_on = now - 25 * 3600 → j1.started_on = now - 3600 →
      invalidate_import_jobs now [j25, j1] = [{ j25 with success := some false }, j1]) := by
  refine ⟨by simp [invalidate_import_jobs], ?_, ?_, ?_, ?_⟩
  · intro i job h hsucc hstale
    rw [invalidate_import_jobs, List.getElem?_map, h, Option.map_some',
      invalidateStep_flagged now job hsucc hstale]
  · intro i job h hcase
    rw [invalidate_import_jobs, List.getElem?_map, h, Option.map_some',
      invalidateStep_untouched now job hcase]
  · unfold invalidate_import_jobs
    rw [List.map_map]
    exact List.map_congr_left (fun job _ => invalidateStep_idem now job)
  · intro j25 j1 h25 h1 hs25 hs1
    show [invalidateStep now j25, invalidateStep now j1] = _
    rw [invalidateStep_flagged now j25 h25 (by rw [hs25]; omega),
      invalidateStep_untouched now j1 (Or.inr (by rw [hs1]; omega))]

/-- Witness for `C5_invalidate_stale_jobs`: the 25-hour / 1-hour scenario at
`now = 0`. -/
theorem C5_invalidate_stale_jobs_witness :
    invalidate_import_jobs 0
        [{ id := 0, user_id := 1, started_on := -90000, finished_on := none,
           success := none, details := none },
         { id := 1, user_id := 1, started_on := -3600, finished_on := none,
           success := none, details := none }]
      = [{ id := 0, user_id := 1, started_on := -90000, finished_on := none,
           success := some false, details := none },
         { id := 1, user_id := 1, started_on := -3600, finished_on := none,
           success := none, details := none }] :=
  (C5_invalidate_stale_jobs 0 []).2.2.2.2
    { id := 0, user_id := 1, started_on := -90000, finished_on := none,
      success := none, details := none }
    { id := 1, user_id := 1, started_on := -3600, finished_on := none,
      success := none, details := none }
    rfl rfl (by decide) (by decide)

/-- C7: unit translation with Metric leaves a set statistic unchanged (so applying
it twice is also the identity); with Imperial it multiplies a present weight by
0.45359 and a present distance by 1.60934, keeps absent fields absent, and leaves
reps and duration untouched. The function is total by construction — there is no
error path. -/
theorem C7_translate_units (s : WorkoutSetStatistic) :
    translate_units .metric s = s ∧
    translate_units .metric (translate_units .metric s) = s ∧
    (s.weight = none → (translate_units .imperial s).weight = none) ∧
    (∀ w : ℚ, s.weight = some w →
      (translate_units .imperial s).weight = some (w * (45359 / 100000))) ∧
    (s.distance = none → (translate_units .imperial s).distance = none) ∧
    (∀ d : ℚ, s.distance = some d →
      (translate_units .imperial s).distance = some (d * (160934 / 100000))) ∧
    (translate_units .imperial s).reps = s.reps ∧
    (translate_units .imperial s).duration = s.duration := by
  refine ⟨rfl, rfl, ?_, ?_, ?_, ?_, rfl, rfl⟩
  · intro h
    simp [translate_units, h]
  · intro w h
    simp [translate_units, h]
  · intro h
    simp [translate_units, h]
  · intro d h
    simp [translate_units, h]

/-- Witness for `C7_translate_units`: concrete statistics with present and absent
fields. -/
theorem C7_translate_units_witness :
    (translate_units .imperial
        { duration := some 5, distance := some 3, reps := some 4, weight := some 2 }).weight
      = some (2 * (45359 / 100000)) ∧
    (translate_units .imperial
        { duration := some 5, distance := some 3, reps := some 4, weight := some 2 }).distance
      = some (3 * (160934 / 100000)) ∧
    (translate_units .imperial
        { duration := none, distance := none, reps := none, weight := none }).weight = none ∧
    (translate_units .imperial
        { duration := none, distance := none, reps := none, weight := none }).distance = none :=
  ⟨(C7_translate_units _).2.2.2.1 2 rfl, (C7_translate_units _).2.2.2.2.2.1 3 rfl,
    (C7_translate_units _).2.2.1 rfl, (C7_translate_units _).2.2.2.2.1 rfl⟩

/-- C10: the Strong-app adapter maps a raw weight of exactly 0 to a set-statistic
weight of 1, passes every non-zero weight through unchanged, and keeps an absent
weight absent. -/
theorem C10_strong_zero_weight (entry : StrongEntry) :
    (entry.weight = some 0 → (strongSetRecord entry).statistic.weight = some 1) ∧
    (∀ w : ℚ, entry.weight = some w → w ≠ 0 →
      (strongSetRecord entry).statistic.weight = some w) ∧
    (entry.weight = none → (strongSetRecord entry).statistic.weight = none) := by
  refine ⟨?_, ?_, ?_⟩
  · intro h
    simp [strongSetRecord, h]
  · intro w h hw
    simp [strongSetRecord, h, hw]
  · intro h
    simp [strongSetRecord, h]

/-- Witness for `C10_strong_zero_weight`: rows with weight 0, weight 20 and no
weight. -/
theorem C10_strong_zero_weight_witness :
    (strongSetRecord
        { date := "2023-01-01 10:00:00", notes := none, weight := some 0,
          reps := some 5, distance := none, seconds := none, set_order := 1,
          exercise_name := "Bench" }).statistic.weight = some 1 ∧
    (strongSetRecord
        { date := "2023-01-01 10:00:00", notes := none, weight := some 20,
          reps := some 5, distance := none, seconds := none, set_order := 1,
          exercise_name := "Bench" }).statistic.weight = some 20 ∧
    (strongSetRecord
        { date := "2023-01-01 10:00:00", notes := none, weight := none,
          reps := some 5, distance := none, seconds := none, set_order := 1,
          exercise_name := "Bench" }).statistic.weight = none :=
  ⟨(C10_strong_zero_weight _).1 rfl,
    (C10_strong_zero_weight _).2.1 20 rfl (by norm_num),
    (C10_strong_zero_weight _).2.2 rfl⟩

theorem upsertAssociation_workouts (user_id : Int) (ex_id : Nat)
    (history_item : UserToExerciseHistoryExtraInformation) (db : DB) :
    (upsertAssociation user_id ex_id history_item db).1.workouts = db.workouts := by
  unfold upsertAssociation
  split <;> rfl

theorem processExercise_workouts (user_id : Int) (id : String)
    (preferences : UserExercisePreferences) (db : DB) (idx : Nat)
    (ex : UserExerciseInput) :
    (processExercise user_id id preferences db idx ex).1.workouts = db.workouts := by
  unfold processExercise
  split
  · rfl
  · dsimp only
    exact upsertAssociation_workouts user_id ex.exercise_id { workout_id := id, idx := idx } db

theorem commitGo_error_of_empty_sets (user_id : Int) (id : String)
    (preferences : UserExercisePreferences) (input : UserWorkoutInput) :
    ∀ (exs : List UserExerciseInput) (db : DB)
      (acc : List (ExerciseLot × ProcessedExercise))
      (totals : List WorkoutTotalMeasurement) (idx : Nat),
      (∃ ex ∈ exs, ex.sets = []) →
      (commitGo user_id id preferences input db acc totals idx exs).2
          = .error "This exercise has no associated sets" ∧
      (commitGo user_id id preferences input db acc totals idx exs).1.workouts
          = db.workouts := by
  intro exs
  induction exs with
  | nil =>
    rintro db acc totals idx ⟨ex, hmem, _⟩
    cases hmem
  | cons e rest ih =>
    rintro db acc totals idx ⟨ex, hmem, hsets⟩
    by_cases he : e.sets.length = 0
    · unfold commitGo
      rw [if_pos he]
      exact ⟨rfl, rfl⟩
    · cases hmem with
      | head => exact absurd (by rw [hsets]; rfl) he
      | tail _ hmem =>
        unfold commitGo
        rw [if_neg he]
        cases hp : processExercise user_id id preferences db idx e with
        | mk db2 r =>
          have hw : db2.workouts = db.workouts := by
            have h3 := processExercise_workouts user_id id preferences db idx e
            rw [hp] at h3
            exact h3
          cases r with
          | none =>
            have h2 := ih db2 acc totals (idx + 1) ⟨ex, hmem, hsets⟩
            exact ⟨h2.1, h2.2.trans hw⟩
          | some pe =>
            have h2 := ih db2 (acc ++ [pe]) (totals ++ [pe.2.total]) (idx + 1)
              ⟨ex, hmem, hsets⟩
            exact ⟨h2.1, h2.2.trans hw⟩

/-- C1 counterexample: a workout whose first exercise has one set and whose second
exercise has zero sets fails with the validation error, yet the association row
created while processing the first exercise survives the failure — so "nothing is
persisted, including exercises processed before the offending one" is false on the
code. No workout row is written, though. -/
theorem C1_partial_write_counterexample :
    badRun.2 = .error "This exercise has no associated sets" ∧
    badRun.1.associations.length = 1 ∧
    badRun.1.workouts = [] :=
  ⟨rfl, by decide, by decide⟩

/-- C1 (amended): committing fails with a validation error when the workout has
zero exercises or any exercise has zero sets. The zero-exercise failure happens
before any write, so the whole database is untouched; a zero-set failure never
persists a workout row, but association writes performed for exercises processed
before the offending one do survive (the commit is not transactional across
exercises). -/
theorem C1_validation_behaviour (input : UserWorkoutInput) (user_id : Int)
    (db : DB) (id : String) (preferences : UserExercisePreferences) :
    (input.exercises = [] →
      calculate_and_commit input user_id db id preferences
        = (db, .error "This workout has no associated exercises")) ∧
    ((∃ ex ∈ input.exercises, ex.sets = []) →
      (calculate_and_commit input user_id db id preferences).2
          = .error "This exercise has no associated sets" ∧
      (calculate_and_commit input user_id db id preferences).1.workouts
          = db.workouts) := by
  constructor
  · intro h
    simp [calculate_and_commit, h]
  · intro hex
    unfold calculate_and_commit
    by_cases h : input.exercises.length = 0
    · rcases hex with ⟨ex, hmem, _⟩
      rw [List.length_eq_zero] at h
      rw [h] at hmem
      cases hmem
    · rw [if_neg h]
      exact commitGo_error_of_empty_sets user_id id preferences input
        input.exercises db [] [] 0 hex

/-- Witness for `C1_validation_behaviour`: the empty workout and the zero-set
workout on the concrete fresh database. -/
theorem C1_validation_behaviour_witness :
    calculate_and_commit emptyInput 1 dbBench "w0" (metricPrefs 3)
        = (dbBench, .error "This workout has no associated exercises") ∧
    (calculate_and_commit badInput 1 dbBench "w1" (metricPrefs 3)).2
        = .error "This exercise has no associated sets" :=
  ⟨(C1_validation_behaviour emptyInput 1 dbBench "w0" (metricPrefs 3)).1 rfl,
    ((C1_validation_behaviour badInput 1 dbBench "w1" (metricPrefs 3)).2
      ⟨{ exercise_id := 2, sets := [], notes := [], rest_time := none },
        by simp [badInput], rfl⟩).1⟩

/-! ### Monotonicity of the media-run state through the import folds -/

theorem foldl_proj_ext {β γ : Type} (proj : MediaRunState → List γ)
    (f : MediaRunState → β → MediaRunState)
    (hf : ∀ st b, ∃ t, proj (f st b) = proj st ++ t) :
    ∀ (l : List β) (st : MediaRunState), ∃ t, proj (l.foldl f st) = proj st ++ t := by
  intro l
  induction l with
  | nil => exact fun st => ⟨[], by simp⟩
  | cons b bs ih =>
    intro st
    rcases hf st b with ⟨t1, h1⟩
    rcases ih (f st b) with ⟨t2, h2⟩
    exact ⟨t1 ++ t2, by rw [List.foldl_cons, h2, h1, List.append_assoc]⟩

theorem foldlM_proj_ext {β γ : Type} (proj : MediaRunState → List γ)
    (f : MediaRunState → β → Except String MediaRunState)
    (hf : ∀ st b st2, f st b = .ok st2 → ∃ t, proj st2 = proj st ++ t) :
    ∀ (l : List β) (st st2 : MediaRunState), l.foldlM f st = .ok st2 →
      ∃ t, proj st2 = proj st ++ t := by
  intro l
  induction l with
  | nil =>
    intro st st2 h
    cases h
    exact ⟨[], by simp⟩
  | cons b bs ih =>
    intro st st2 h
    rw [List.foldlM_cons] at h
    cases hfb : f st b with
    | error e => rw [hfb] at h; cases h
    | ok s1 =>
      rw [hfb] at h
      rcases hf st b s1 hfb with ⟨t1, h1⟩
      rcases ih s1 st2 h with ⟨t2, h2⟩
      exact ⟨t1 ++ t2, by rw [h2, h1, List.append_assoc]⟩

theorem seenStep_proj (o : MediaOracles) (lot : MetadataLot) (source_id : String)
    (metadata_id : Nat) (st : MediaRunState) (seen : ImportSeenItem) :
    (∃ t, (seenStep o lot source_id metadata_id st seen).trace = st.trace ++ t) ∧
    (∃ t, (seenStep o lot source_id metadata_id st seen).failed_items
        = st.failed_items ++ t) := by
  unfold seenStep
  cases hpu : o.progress_update metadata_id (some (match seen.progress with
      | some p => p | none => 100)) with
  | ok u =>
    exact ⟨⟨[ImportEvent.seenApplied metadata_id (match seen.progress with
        | some p => p | none => 100)], by simp [hpu]⟩, ⟨[], by simp [hpu]⟩⟩
  | error e =>
    exact ⟨⟨[], by simp [hpu]⟩,
      ⟨[{ lot := lot, step := .seenHistoryConversion, identifier := source_id,
          error := some e }], by simp [hpu]⟩⟩

theorem reviewStep_proj (o : MediaOracles) (review_scale : UserReviewScale)
    (lot : MetadataLot) (source_id : String) (metadata_id : Nat) (st : MediaRunState)
    (review : ImportReviewItem) :
    (∃ t, (reviewStep o review_scale lot source_id metadata_id st review).trace
        = st.trace ++ t) ∧
    (∃ t, (reviewStep o review_scale lot source_id metadata_id st review).failed_items
        = st.failed_items ++ t) := by
  unfold reviewStep
  by_cases hskip : (review.review.isNone && review.rating.isNone) = true
  · rw [if_pos hskip]
    exact ⟨⟨[], by simp⟩, ⟨[], by simp⟩⟩
  · rw [if_neg hskip]
    cases review_scale with
    | outOfFive =>
      cases hpr : o.post_review metadata_id (review.rating.map (fun r => r / 20))
          review.review with
      | ok u =>
        exact ⟨⟨[ImportEvent.reviewPosted metadata_id
            (review.rating.map (fun r => r / 20))], by simp [hpr]⟩, ⟨[], by simp [hpr]⟩⟩
      | error e =>
        exact ⟨⟨[], by simp [hpr]⟩,
          ⟨[{ lot := lot, step := .reviewConversion, identifier := source_id,
              error := some e }], by simp [hpr]⟩⟩
    | outOfHundred =>
      cases hpr : o.post_review metadata_id review.rating review.review with
      | ok u =>
        exact ⟨⟨[ImportEvent.reviewPosted metadata_id review.rating], by simp [hpr]⟩,
          ⟨[], by simp [hpr]⟩⟩
      | error e =>
        exact ⟨⟨[], by simp [hpr]⟩,
          ⟨[{ lot := lot, step := .reviewConversion, identifier := source_id,
              error := some e }], by simp [hpr]⟩⟩

theorem itemCollectionStep_proj (o : MediaOracles) (metadata_id : Nat)
    (st : MediaRunState) (col : String) (st2 : MediaRunState)
    (h : itemCollectionStep o metadata_id st col = .ok st2) :
    (∃ t, st2.trace = st.trace ++ t) ∧ st2.failed_items = st.failed_items := by
  unfold itemCollectionStep at h
  cases hcc : o.create_or_update_collection col with
  | error e => rw [hcc] at h; cases h
  | ok u =>
    rw [hcc] at h
    dsimp only at h
    cases hae : o.add_entity_to_collection col metadata_id with
    | ok v =>
      rw [hae] at h
      cases h
      exact ⟨⟨_, by rw [List.append_assoc]⟩, rfl⟩
    | error e =>
      rw [hae] at h
      cases h
      exact ⟨⟨_, rfl⟩, rfl⟩

theorem importMediaItemStep_trace (o : MediaOracles) (review_scale : UserReviewScale)
    (st : MediaRunState) (item : ImportMediaItem) (st2 : MediaRunState)
    (h : importMediaItemStep o review_scale st item = .ok st2) :
    ∃ t, st2.trace = st.trace ++ t := by
  unfold importMediaItemStep at h
  cases hcm : o.commit_media item.internal_identifier with
  | error e =>
    rw [hcm] at h
    cases h
    exact ⟨[], by simp⟩
  | ok m =>
    rw [hcm] at h
    dsimp only at h
    rcases foldl_proj_ext (fun st => st.trace) (seenStep o item.lot item.source_id m)
        (fun st seen => (seenStep_proj o item.lot item.source_id m st seen).1)
        item.seen_history
        { st with trace := st.trace ++ [ImportEvent.mediaCommitted item.source_id m] }
      with ⟨t1, h1⟩
    rcases foldl_proj_ext (fun st => st.trace)
        (reviewStep o review_scale item.lot item.source_id m)
        (fun st review => (reviewStep_proj o review_scale item.lot item.source_id m st review).1)
        item.reviews _
      with ⟨t2, h2⟩
    rcases foldlM_proj_ext (fun st => st.trace) (itemCollectionStep o m)
        (fun st col st2 hc => (itemCollectionStep_proj o m st col st2 hc).1)
        item.collections _ st2 h
      with ⟨t3, h3⟩
    refine ⟨[ImportEvent.mediaCommitted item.source_id m] ++ t1 ++ t2 ++ t3, ?_⟩
    rw [h3, h2, h1]
    simp [List.append_assoc]

theorem importMediaItemStep_failed (o : MediaOracles) (review_scale : UserReviewScale)
    (st : MediaRunState) (item : ImportMediaItem) (st2 : MediaRunState)
    (h : importMediaItemStep o review_scale st item = .ok st2) :
    ∃ t, st2.failed_items = st.failed_items ++ t := by
  unfold importMediaItemStep at h
  cases hcm : o.commit_media item.internal_identifier with
  | error e =>
    rw [hcm] at h
    cases h
    exact ⟨_, rfl⟩
  | ok m =>
    rw [hcm] at h
    dsimp only at h
    rcases foldl_proj_ext (fun st => st.failed_items) (seenStep o item.lot item.source_id m)
        (fun st seen => (seenStep_proj o item.lot item.source_id m st seen).2)
        item.seen_history
        { st with trace := st.trace ++ [ImportEvent.mediaCommitted item.source_id m] }
      with ⟨t1, h1⟩
    rcases foldl_proj_ext (fun st => st.failed_items)
        (reviewStep o review_scale item.lot item.source_id m)
        (fun st review => (reviewStep_proj o review_scale item.lot item.source_id m st review).2)
        item.reviews _
      with ⟨t2, h2⟩
    rcases foldlM_proj_ext (fun st => st.failed_items) (itemCollectionStep o m)
        (fun st col st2 hc =>
          ⟨[], by have he := (itemCollectionStep_proj o m st col st2 hc).2; simp [he]⟩)
        item.collections _ st2 h
      with ⟨t3, h3⟩
    refine ⟨t1 ++ t2 ++ t3, ?_⟩
    rw [h3, h2, h1]
    simp [List.append_assoc]

theorem collections_fold_trace (o : MediaOracles) :
    ∀ (cols : List CreateOrUpdateCollectionInput) (st st2 : MediaRunState),
      cols.foldlM (requestedCollectionStep o) st = .ok st2 →
      st2.trace = st.trace ++ cols.map (fun c => ImportEvent.collectionCreated c.name) ∧
      st2.failed_items = st.failed_items := by
  intro cols
  induction cols with
  | nil =>
    intro st st2 h
    cases h
    exact ⟨by simp, rfl⟩
  | cons c cs ih =>
    intro st st2 h
    rw [List.foldlM_cons] at h
    unfold requestedCollectionStep at h
    cases hcc : o.create_or_update_collection c.name with
    | error e => rw [hcc] at h; cases h
    | ok u =>
      rw [hcc] at h
      have h2 := ih { st with trace := st.trace ++ [.collectionCreated c.name] } st2 h
      refine ⟨?_, h2.2⟩
      rw [h2.1]
      simp

/-- C8: the media pipeline processes the batch in descending order of richness
(seen-history + review + collection counts): the processed list is a permutation
of the input media sorted so that richness never increases; and on every
completed run the requested collections are all materialized (in order) before
any media item is processed — the trace starts with exactly the collection
events. -/
theorem C8_media_processing_order (imp : ImportResult) (o : MediaOracles)
    (review_scale : UserReviewScale) :
    List.Perm (sortMediaDesc imp.media) imp.media ∧
    (sortMediaDesc imp.media).Pairwise (fun a b => richness b ≤ richness a) ∧
    (∀ st res, import_media_run o review_scale imp = .ok (st, res) →
      ∃ rest, st.trace
        = imp.collections.map (fun c => ImportEvent.collectionCreated c.name) ++ rest) := by
  refine ⟨(List.reverse_perm _).trans (List.mergeSort_perm _ _), ?_, ?_⟩
  · refine List.pairwise_reverse.mpr ?_
    have hs := @List.sorted_mergeSort _
      (fun a b => decide (richness a ≤ richness b))
      (by intro a b c h1 h2; simp at *; omega)
      (by intro a b; simp; omega)
      imp.media
    exact hs.imp (by intro a b hab; simpa using hab)
  · intro st res h
    unfold import_media_run at h
    simp only [bind, Except.bind] at h
    cases hc : (imp.collections.foldlM (requestedCollectionStep o)
        { failed_items := imp.failed_items, trace := [] }) with
    | error e => rw [hc] at h; cases h
    | ok st1 =>
      rw [hc] at h
      dsimp only at h
      cases hm : (sortMediaDesc imp.media).foldlM
          (importMediaItemStep o review_scale) st1 with
      | error e => rw [hm] at h; cases h
      | ok st2 =>
        rw [hm] at h
        rw [Except.ok.injEq, Prod.mk.injEq] at h
        obtain ⟨hst, hres⟩ := h
        have h1 := collections_fold_trace o imp.collections _ st1 hc
        rcases foldlM_proj_ext (fun st => st.trace) _
            (importMediaItemStep_trace o review_scale) _ st1 st2 hm with ⟨t, ht⟩
        refine ⟨t, ?_⟩
        rw [← hst, ht, h1.1]
        simp

/-- Witness for `C8_media_processing_order`: on the concrete run the trace starts
with the requested collection events. -/
theorem C8_media_processing_order_witness :
    ∃ rest, c8out.1.trace
      = c8imp.collections.map (fun c => ImportEvent.collectionCreated c.name) ++ rest :=
  (C8_media_processing_order c8imp okOracles .outOfHundred).2.2 c8out.1 c8out.2 rfl

/-! ### C4: per-item failure isolation in the media pipeline -/

theorem requestedCollections_ok (o : MediaOracles)
    (hcol : ∀ name, o.create_or_update_collection name = .ok ()) :
    ∀ (cols : List CreateOrUpdateCollectionInput) (st : MediaRunState),
      ∃ st2, cols.foldlM (requestedCollectionStep o) st = .ok st2 := by
  intro cols
  induction cols with
  | nil => exact fun st => ⟨st, rfl⟩
  | cons c cs ih =>
    intro st
    rcases ih { st with trace := st.trace ++ [.collectionCreated c.name] } with ⟨st2, h⟩
    refine ⟨st2, ?_⟩
    rw [List.foldlM_cons]
    unfold requestedCollectionStep
    rw [hcol c.name]
    exact h

theorem itemCollections_ok (o : MediaOracles) (m : Nat)
    (hcol : ∀ name, o.create_or_update_collection name = .ok ()) :
    ∀ (cols : List String) (st : MediaRunState),
      ∃ st2, cols.foldlM (itemCollectionStep o m) st = .ok st2 := by
  intro cols
  induction cols with
  | nil => exact fun st => ⟨st, rfl⟩
  | cons c cs ih =>
    intro st
    have hstep : ∃ st1, itemCollectionStep o m st c = .ok st1 := by
      unfold itemCollectionStep
      rw [hcol c]
      cases o.add_entity_to_collection c m with
      | ok v => exact ⟨_, rfl⟩
      | error e => exact ⟨_, rfl⟩
    rcases hstep with ⟨st1, h1⟩
    rcases ih st1 with ⟨st2, h2⟩
    refine ⟨st2, ?_⟩
    rw [List.foldlM_cons, h1]
    exact h2

theorem importMediaItemStep_ok (o : MediaOracles) (review_scale : UserReviewScale)
    (hcol : ∀ name, o.create_or_update_collection name = .ok ())
    (st : MediaRunState) (item : ImportMediaItem) :
    ∃ st2, importMediaItemStep o review_scale st item = .ok st2 := by
  unfold importMediaItemStep
  cases o.commit_media item.internal_identifier with
  | error e => exact ⟨_, rfl⟩
  | ok m => exact itemCollections_ok o m hcol item.collections _

theorem itemsFold_ok (o : MediaOracles) (review_scale : UserReviewScale)
    (hcol : ∀ name, o.create_or_update_collection name = .ok ()) :
    ∀ (items : List ImportMediaItem) (st : MediaRunState),
      ∃ st2, items.foldlM (importMediaItemStep o review_scale) st = .ok st2 := by
  intro items
  induction items with
  | nil => exact fun st => ⟨st, rfl⟩
  | cons b bs ih =>
    intro st
    rcases importMediaItemStep_ok o review_scale hcol st b with ⟨st1, h1⟩
    rcases ih st1 with ⟨st2, h2⟩
    refine ⟨st2, ?_⟩
    rw [List.foldlM_cons, h1]
    exact h2

theorem import_media_run_ok (o : MediaOracles) (review_scale : UserReviewScale)
    (imp : ImportResult)
    (hcol : ∀ name, o.create_or_update_collection name = .ok ()) :
    ∃ st1 st,
      imp.collections.foldlM (requestedCollectionStep o)
          { failed_items := imp.failed_items, trace := [] } = .ok st1 ∧
      (sortMediaDesc imp.media).foldlM (importMediaItemStep o review_scale) st1
          = .ok st ∧
      import_media_run o review_scale imp
        = .ok (st, { import_details := { total := (sortMediaDesc imp.media).length },
                     failed_items := st.failed_items }) := by
  rcases requestedCollections_ok o hcol imp.collections
      { failed_items := imp.failed_items, trace := [] } with ⟨st1, h1⟩
  rcases itemsFold_ok o review_scale hcol (sortMediaDesc imp.media) st1 with ⟨st2, h2⟩
  refine ⟨st1, st2, h1, h2, ?_⟩
  unfold import_media_run
  simp only [bind, Except.bind]
  rw [h1]
  dsimp only
  rw [h2]

theorem itemsFold_failure_recorded (o : MediaOracles) (review_scale : UserReviewScale) :
    ∀ (items : List ImportMediaItem) (st st2 : MediaRunState),
      items.foldlM (importMediaItemStep o review_scale) st = .ok st2 →
      ∀ item ∈ items, ∀ e, o.commit_media item.internal_identifier = .error e →
        ({ lot := item.lot, step := .mediaDetailsFromProvider,
           identifier := item.source_id, error := some e } : ImportFailedItem)
          ∈ st2.failed_items := by
  intro items
  induction items with
  | nil =>
    intro st st2 h item hm
    cases hm
  | cons b bs ih =>
    intro st st2 h item hm e he
    rw [List.foldlM_cons] at h
    cases hsb : importMediaItemStep o review_scale st b with
    | error e2 => rw [hsb] at h; cases h
    | ok s1 =>
      rw [hsb] at h
      simp only [bind, Except.bind] at h
      cases hm with
      | head =>
        have hstep : importMediaItemStep o review_scale st b
            = .ok { st with failed_items := st.failed_items ++
                [{ lot := b.lot, step := .mediaDetailsFromProvider,
                   identifier := b.source_id, error := some e }] } := by
          unfold importMediaItemStep
          rw [he]
        rw [hstep] at hsb
        have hs1 : s1 = { st with failed_items := st.failed_items ++
            [{ lot := b.lot, step := .mediaDetailsFromProvider,
               identifier := b.source_id, error := some e }] } :=
          (Except.ok.inj hsb).symm
        rcases foldlM_proj_ext (fun st => st.failed_items) _
            (importMediaItemStep_failed o review_scale) bs s1 st2 h with ⟨t, ht⟩
        rw [ht, hs1]
        simp
      | tail _ hm => exact ih s1 st2 h item hm e he

/-- C4: a failure to resolve an item's catalog entry is recorded as a failed item
tagged `MediaDetailsFromProvider` and that item is skipped entirely (the step adds
exactly that failed item and nothing else, and still returns `ok`, so the batch is
not aborted); whenever collection creation succeeds, the whole run completes, the
job is finished with `success = some true`, and the job result carries the
accumulated failed-item list, which contains one such entry per resolution
failure. In the concrete three-item batch where item 2's resolution fails, the
job completes with `success = some true`, `failed_items` is exactly one
`MediaDetailsFromProvider` entry for item 2, and items 1 and 3 are fully
committed (commit plus seen-history events in the trace, item 2 absent). -/
theorem C4_media_failure_isolation :
    (∀ (o : MediaOracles) (review_scale : UserReviewScale) (st : MediaRunState)
        (item : ImportMediaItem) (e : String),
      o.commit_media item.internal_identifier = .error e →
      importMediaItemStep o review_scale st item
        = .ok { st with failed_items := st.failed_items ++
            [{ lot := item.lot, step := .mediaDetailsFromProvider,
               identifier := item.source_id, error := some e }] }) ∧
    (∀ (o : MediaOracles) (review_scale : UserReviewScale) (imp : ImportResult)
        (job : ImportReportRow) (now : Int),
      (∀ name, o.create_or_update_collection name = .ok ()) →
      ∃ st res, import_media_run o review_scale imp = .ok (st, res) ∧
        (import_media_job o review_scale imp job now).1.success = some true ∧
        res.failed_items = st.failed_items ∧
        (∀ item ∈ sortMediaDesc imp.media, ∀ e,
          o.commit_media item.internal_identifier = .error e →
          ({ lot := item.lot, step := .mediaDetailsFromProvider,
             identifier := item.source_id, error := some e } : ImportFailedItem)
            ∈ st.failed_items)) ∧
    ((import_media_job c4oracle .outOfHundred c4imp c4job0 5).1.success = some true ∧
      c4out.2.failed_items
        = [{ lot := .movie, step := .mediaDetailsFromProvider,
             identifier := "id2", error := some "provider failure" }] ∧
      c4out.2.import_details.total = 3 ∧
      c4out.1.trace
        = [.mediaCommitted "id1" 7, .seenApplied 7 40, .seenApplied 7 100,
           .mediaCommitted "id3" 7]) := by
  refine ⟨?_, ?_, by decide, by decide, by decide, by decide⟩
  · intro o review_scale st item e he
    unfold importMediaItemStep
    rw [he]
  · intro o review_scale imp job now hcol
    rcases import_media_run_ok o review_scale imp hcol with ⟨st1, st, h1, h2, hrun⟩
    refine ⟨st,
      { import_details := { total := (sortMediaDesc imp.media).length },
        failed_items := st.failed_items }, hrun, ?_, rfl, ?_⟩
    · unfold import_media_job
      rw [hrun]
      rfl
    · intro item hm e he
      exact itemsFold_failure_recorded o review_scale (sortMediaDesc imp.media)
        st1 st h2 item hm e he

/-- Witness for `C4_media_failure_isolation`: the failing step on the concrete
item 2 and the completed concrete run. -/
theorem C4_media_failure_isolation_witness :
    importMediaItemStep c4oracle .outOfHundred { failed_items := [], trace := [] } c4item2
      = .ok { failed_items :=
          [{ lot := .movie, step := .mediaDetailsFromProvider,
             identifier := "id2", error := some "provider failure" }], trace := [] } ∧
    (∃ st res, import_media_run c4oracle .outOfHundred c4imp = .ok (st, res)) := by
  constructor
  · exact C4_media_failure_isolation.1 c4oracle .outOfHundred
      { failed_items := [], trace := [] } c4item2 "provider failure" rfl
  · rcases C4_media_failure_isolation.2.1 c4oracle .outOfHundred c4imp c4job0 5
        (fun _ => rfl) with ⟨st, res, hrun, _⟩
    exact ⟨st, res, hrun⟩

/-! ### C6: frame properties of workout deletion -/

theorem map_ite_eq_self {α : Type} (p : α → Bool) (f : α → α) :
    ∀ l : List α, (∀ a ∈ l, p a = false) →
      l.map (fun a => if p a then f a else a) = l := by
  intro l
  induction l with
  | nil => intro _; rfl
  | cons x xs ih =>
    intro h
    rw [List.map_cons, if_neg (by rw [h x (List.mem_cons_self x xs)]; simp),
      ih (fun a ha => h a (List.mem_cons_of_mem x ha))]

theorem updateFirst_eq_map {α : Type} (p : α → Bool) (f : α → α) :
    ∀ l : List α, l.Pairwise (fun a b => ¬(p a = true ∧ p b = true)) →
      updateFirst p f l = l.map (fun a => if p a then f a else a) := by
  intro l
  induction l with
  | nil => intro _; rfl
  | cons x xs ih =>
    intro hp
    rw [List.pairwise_cons] at hp
    unfold updateFirst
    by_cases hx : p x = true
    · rw [if_pos hx, List.map_cons, if_pos hx]
      have hxs : ∀ a ∈ xs, p a = false := by
        intro a ha
        rcases Bool.eq_false_or_eq_true (p a) with h | h
        · exact absurd ⟨hx, h⟩ (hp.1 a ha)
        · exact h
      rw [map_ite_eq_self p f xs hxs]
    · rw [if_neg hx, List.map_cons, if_neg hx, ih hp.2]

theorem history_beq_mk (w_id : String) (idx : Nat)
    (e : UserToExerciseHistoryExtraInformation) :
    (e.workout_id == w_id && e.idx == idx)
      = (e == (⟨w_id, idx⟩ : UserToExerciseHistoryExtraInformation)) := by
  cases e with
  | mk a b =>
    rw [Bool.eq_iff_iff]
    simp [UserToExerciseHistoryExtraInformation.mk.injEq]

theorem findIdx_eraseIdx_eq_erase (w_id : String) (idx : Nat) :
    ∀ l : List UserToExerciseHistoryExtraInformation,
      (match l.findIdx? (fun e => e.workout_id == w_id && e.idx == idx) with
       | some i => l.eraseIdx i
       | none => l)
        = l.erase ⟨w_id, idx⟩ := by
  intro l
  induction l with
  | nil => rfl
  | cons x xs ih =>
    by_cases hx : (x.workout_id == w_id && x.idx == idx) = true
    · rw [List.findIdx?_cons, if_pos hx, List.erase_cons,
        if_pos (by rw [← history_beq_mk w_id idx x]; exact hx)]
      rfl
    · have hx2 : (x.workout_id == w_id && x.idx == idx) = false :=
        Bool.eq_false_iff.mpr hx
      rw [List.findIdx?_cons, if_neg (by rw [hx2]; simp), List.findIdx?_succ,
        List.erase_cons, if_neg (by rw [← history_beq_mk w_id idx x, hx2]; simp)]
      cases hfind : xs.findIdx? (fun e => e.workout_id == w_id && e.idx == idx) with
      | none =>
        rw [hfind] at ih
        simp only [Option.map_none']
        rw [← ih]
      | some i =>
        rw [hfind] at ih
        simp only [Option.map_some']
        show (x :: xs).eraseIdx (i + 1) = x :: xs.erase ⟨w_id, idx⟩
        rw [← ih]
        rfl

theorem delete_fold_parts (w : WorkoutModel) (user_id : Int) :
    ∀ (L : List (Nat × ProcessedExercise)) (db : DB),
      (L.foldl
        (fun db p =>
          let newAssociations :=
            updateFirst
              (fun a => a.user_id == user_id && a.exercise_id == some p.2.id)
              (deleteAssocUpdate w p.1)
              db.associations
          { db with associations := newAssociations })
        db).associations
        = L.foldl
            (fun rows p =>
              updateFirst
                (fun a => a.user_id == user_id && a.exercise_id == some p.2.id)
                (deleteAssocUpdate w p.1) rows)
            db.associations ∧
      (L.foldl
        (fun db p =>
          let newAssociations :=
            updateFirst
              (fun a => a.user_id == user_id && a.exercise_id == some p.2.id)
              (deleteAssocUpdate w p.1)
              db.associations
          { db with associations := newAssociations })
        db).workouts = db.workouts := by
  intro L
  induction L with
  | nil => exact fun db => ⟨rfl, rfl⟩
  | cons p ps ih =>
    intro db
    rw [List.foldl_cons, List.foldl_cons]
    exact ih _

theorem deleteAssocUpdate_keys (w : WorkoutModel) (idx : Nat) (a : AssocRow) :
    (deleteAssocUpdate w idx a).user_id = a.user_id ∧
    (deleteAssocUpdate w idx a).exercise_id = a.exercise_id :=
  ⟨rfl, rfl⟩

theorem delete_fold_eq_map (w : WorkoutModel) (user_id : Int) :
    ∀ (L : List (Nat × ProcessedExercise)) (rows : List AssocRow),
      L.Pairwise (fun p q => p.2.id ≠ q.2.id) →
      rows.Pairwise (fun a b => ¬(a.user_id = b.user_id ∧ a.exercise_id = b.exercise_id)) →
      L.foldl
          (fun rows p =>
            updateFirst
              (fun a => a.user_id == user_id && a.exercise_id == some p.2.id)
              (deleteAssocUpdate w p.1) rows)
          rows
        = rows.map (fun a =>
            match L.find?
                (fun p => a.user_id == user_id && a.exercise_id == some p.2.id) with
            | some p => deleteAssocUpdate w p.1 a
            | none => a) := by
  intro L
  induction L with
  | nil =>
    intro rows _ _
    rw [List.foldl_nil]
    have h : ∀ a ∈ rows,
        (match ([] : List (Nat × ProcessedExercise)).find?
            (fun p => a.user_id == user_id && a.exercise_id == some p.2.id) with
         | some p => deleteAssocUpdate w p.1 a
         | none => a) = a := fun a _ => rfl
    rw [List.map_congr_left h]
    simp
  | cons p ps ih =>
    intro rows hL hkeys
    rw [List.pairwise_cons] at hL
    rw [List.foldl_cons]
    have hone : rows.Pairwise (fun a b =>
        ¬((a.user_id == user_id && a.exercise_id == some p.2.id) = true ∧
          (b.user_id == user_id && b.exercise_id == some p.2.id) = true)) := by
      refine hkeys.imp ?_
      intro a b hab hcontra
      rcases hcontra with ⟨ha, hb⟩
      rw [Bool.and_eq_true, beq_iff_eq, beq_iff_eq] at ha hb
      exact hab ⟨ha.1.trans hb.1.symm, ha.2.trans hb.2.symm⟩
    rw [updateFirst_eq_map _ _ rows hone]
    have hkeys2 : (rows.map (fun a =>
        if a.user_id == user_id && a.exercise_id == some p.2.id
        then deleteAssocUpdate w p.1 a else a)).Pairwise
        (fun a b => ¬(a.user_id = b.user_id ∧ a.exercise_id = b.exercise_id)) := by
      rw [List.pairwise_map]
      refine hkeys.imp ?_
      intro a b hab hcontra
      apply hab
      split_ifs at hcontra <;> exact hcontra
    rw [ih _ hL.2 hkeys2, List.map_map]
    apply List.map_congr_left
    intro a _
    simp only [Function.comp_apply]
    by_cases ha : (a.user_id == user_id && a.exercise_id == some p.2.id) = true
    · rw [if_pos ha,
        @List.find?_cons_of_pos _
          (fun q => a.user_id == user_id && a.exercise_id == some q.2.id) p ps ha]
      have hmatch := ha
      rw [Bool.and_eq_true, beq_iff_eq, beq_iff_eq] at hmatch
      have hfind : ps.find?
          (fun q => (deleteAssocUpdate w p.1 a).user_id == user_id &&
            (deleteAssocUpdate w p.1 a).exercise_id == some q.2.id) = none := by
        rw [List.find?_eq_none]
        intro q hq
        simp only [(deleteAssocUpdate_keys w p.1 a).1, (deleteAssocUpdate_keys w p.1 a).2,
          Bool.and_eq_true, beq_iff_eq, not_and]
        intro _ hqid
        rw [hmatch.2] at hqid
        exact absurd (Option.some.inj hqid) (hL.1 q hq)
      rw [hfind]
    · rw [if_neg ha,
        @List.find?_cons_of_neg _
          (fun q => a.user_id == user_id && a.exercise_id == some q.2.id) p ps ha]

/-- C6: deleting a workout rewrites each association row whose exercise is
recorded in the workout with exactly `deleteAssocUpdate` (and leaves every other
row untouched), removes the workout row itself, and `deleteAssocUpdate`
decrements the interaction counter by exactly one and erases the matching
`(workout id, position)` history entry while leaving the lifetime aggregate
totals and the per-category PB table bit-for-bit unchanged — even when the PB
table still references the deleted workout. Hypotheses: the workout's recorded
exercise ids are distinct, and association rows have unique (user, exercise)
keys, as the database's unique index guarantees. -/
theorem C6_delete_workout (w : WorkoutModel) (db : DB) (user_id : Int)
    (hids : (w.information.exercises.map (fun e => e.id)).Nodup)
    (hkeys : db.associations.Pairwise
      (fun a b => ¬(a.user_id = b.user_id ∧ a.exercise_id = b.exercise_id))) :
    (delete_existing w db user_id).associations
      = db.associations.map (fun a =>
          match (w.information.exercises.enum).find?
              (fun p => a.user_id == user_id && a.exercise_id == some p.2.id) with
          | some p => deleteAssocUpdate w p.1 a
          | none => a) ∧
    (delete_existing w db user_id).workouts
      = db.workouts.filter (fun m => !(m.id == w.id)) ∧
    (∀ (idx : Nat) (a : AssocRow) (ei : UserToExerciseExtraInformation),
      a.exercise_extra_information = some ei →
      (deleteAssocUpdate w idx a).num_times_interacted = a.num_times_interacted - 1 ∧
      (deleteAssocUpdate w idx a).user_id = a.user_id ∧
      (deleteAssocUpdate w idx a).exercise_id = a.exercise_id ∧
      (deleteAssocUpdate w idx a).exercise_extra_information
        = some { ei with history := ei.history.erase ⟨w.id, idx⟩ }) := by
  refine ⟨?_, ?_, ?_⟩
  · show ((w.information.exercises.enum).foldl _ db).associations = _
    rw [(delete_fold_parts w user_id (w.information.exercises.enum) db).1]
    apply delete_fold_eq_map
    · have h2 : ((w.information.exercises.enum.map Prod.snd).map
          (fun e => e.id)).Pairwise Ne := by
        rw [List.enum_map_snd]
        exact hids
      rw [List.map_map] at h2
      exact List.pairwise_map.mp h2
    · exact hkeys
  · show ((w.information.exercises.enum).foldl _ db).workouts.filter _ = _
    rw [(delete_fold_parts w user_id (w.information.exercises.enum) db).2]
  · intro idx a ei hei
    refine ⟨rfl, rfl, rfl, ?_⟩
    unfold deleteAssocUpdate
    rw [hei]
    simp only [Option.getD_some]
    cases hf : ei.history.findIdx? (fun e => e.workout_id == w.id && e.idx == idx) with
    | some i =>
      have he : ei.history.eraseIdx i = ei.history.erase ⟨w.id, idx⟩ := by
        have h0 := findIdx_eraseIdx_eq_erase w.id idx ei.history
        rw [hf] at h0
        exact h0
      simp only [hf, he]
    | none =>
      have he : ei.history = ei.history.erase ⟨w.id, idx⟩ := by
        have h0 := findIdx_eraseIdx_eq_erase w.id idx ei.history
        rw [hf] at h0
        exact h0
      simp only [hf, ← he]

theorem optGt_false_of_le_of_gt (a h c : Option ℚ)
    (h1 : optGt a h = false) (h2 : optGt c h = true) : optGt a c = false := by
  rcases (optGt_eq_true_iff c h).mp h2 with ⟨cv, hc, hrest⟩
  subst hc
  cases a with
  | none => rfl
  | some av =>
    rcases hrest with hnone | ⟨hv, hh, hlt⟩
    · subst hnone
      have h3 : optGt (some av) none = true := rfl
      rw [h3] at h1
      cases h1
    · subst hh
      have hle : ¬ hv < av := by
        intro hcon
        rw [(optGt_eq_true_iff (some av) (some hv)).mpr
          ⟨av, rfl, Or.inr ⟨hv, rfl, hcon⟩⟩] at h1
        cases h1
      refine Bool.eq_false_iff.mpr ?_
      intro hcon
      rcases (optGt_eq_true_iff (some av) (some cv)).mp hcon with ⟨av2, hav2, hr⟩
      rcases hr with h' | ⟨cv2, hcv2, hlt2⟩
      · cases h'
      · cases Option.some.inj hav2
        cases Option.some.inj hcv2
        exact hle (hlt.trans hlt2)

theorem updateFirst_mem {α : Type} (p : α → Bool) (f : α → α) :
    ∀ (l : List α) (x : α), x ∈ updateFirst p f l →
      x ∈ l ∨ ∃ y, l.find? p = some y ∧ x = f y := by
  intro l
  induction l with
  | nil => intro x hx; cases hx
  | cons a as ih =>
    intro x hx
    unfold updateFirst at hx
    by_cases ha : p a = true
    · rw [if_pos ha] at hx
      cases hx with
      | head => exact Or.inr ⟨a, List.find?_cons_of_pos as ha, rfl⟩
      | tail _ h => exact Or.inl (List.mem_cons_of_mem a h)
    · rw [if_neg ha] at hx
      cases hx with
      | head => exact Or.inl (List.mem_cons_self a as)
      | tail _ h =>
        rcases ih x h with h2 | ⟨y, hy, hfy⟩
        · exact Or.inl (List.mem_cons_of_mem a h2)
        · exact Or.inr ⟨y, by rw [List.find?_cons_of_neg as ha]; exact hy, hfy⟩

theorem find?_cons_pos' {α : Type} (p : α → Bool) (a : α) (l : List α)
    (h : p a = true) : (a :: l).find? p = some a :=
  List.find?_cons_of_pos l h

theorem find?_cons_neg' {α : Type} (p : α → Bool) (a : α) (l : List α)
    (h : p a = false) : (a :: l).find? p = l.find? p :=
  List.find?_cons_of_neg l (by rw [h]; exact Bool.false_ne_true)

theorem find?_lot_updateFirst (f : UserToExerciseBestSetExtraInformation →
      UserToExerciseBestSetExtraInformation)
    (hf : ∀ y, (f y).lot = y.lot) (b b2 : WorkoutSetPersonalBest) (hne : b2 ≠ b) :
    ∀ l : List UserToExerciseBestSetExtraInformation,
      (updateFirst (fun x => x.lot == b) f l).find? (fun x => x.lot == b2)
        = l.find? (fun x => x.lot == b2) := by
  intro l
  induction l with
  | nil => rfl
  | cons a as ih =>
    unfold updateFirst
    by_cases ha : (a.lot == b) = true
    · rw [if_pos ha]
      rw [beq_iff_eq] at ha
      have hne2 : ¬ b = b2 := fun hcon => hne hcon.symm
      have hfa : ((f a).lot == b2) = false := by
        rw [hf a, ha]
        exact beq_eq_false_iff_ne.mpr hne2
      have haa : (a.lot == b2) = false := by
        rw [ha]
        exact beq_eq_false_iff_ne.mpr hne2
      rw [find?_cons_neg' (fun x => x.lot == b2) (f a) as hfa,
        find?_cons_neg' (fun x => x.lot == b2) a as haa]
    · rw [if_neg ha]
      by_cases ha2 : (a.lot == b2) = true
      · rw [find?_cons_pos' (fun x => x.lot == b2) a _ ha2,
          find?_cons_pos' (fun x => x.lot == b2) a as ha2]
      · have ha3 : (a.lot == b2) = false := Bool.eq_false_iff.mpr ha2
        rw [find?_cons_neg' (fun x => x.lot == b2) a _ ha3,
          find?_cons_neg' (fun x => x.lot == b2) a as ha3]
        exact ih

theorem find?_lot_append (pbs : List UserToExerciseBestSetExtraInformation)
    (e : UserToExerciseBestSetExtraInformation) (b2 : WorkoutSetPersonalBest)
    (hne : e.lot ≠ b2) :
    (pbs ++ [e]).find? (fun x => x.lot == b2) = pbs.find? (fun x => x.lot == b2) := by
  induction pbs with
  | nil =>
    show [e].find? _ = _
    rw [find?_cons_neg' (fun x => x.lot == b2) e [] (beq_eq_false_iff_ne.mpr hne)]
  | cons a as ih =>
    by_cases ha : (a.lot == b2) = true
    · rw [List.cons_append, find?_cons_pos' (fun x => x.lot == b2) a _ ha,
        find?_cons_pos' (fun x => x.lot == b2) a as ha]
    · have ha3 : (a.lot == b2) = false := Bool.eq_false_iff.mpr ha
      rw [List.cons_append, find?_cons_neg' (fun x => x.lot == b2) a _ ha3,
        find?_cons_neg' (fun x => x.lot == b2) a as ha3]
      exact ih

theorem pushStep_invariant (id : String) (cap : Nat) (set_idx : Nat)
    (s : WorkoutSetRecord) (pbs : List UserToExerciseBestSetExtraInformation)
    (b : WorkoutSetPersonalBest)
    (hinv : pbInvariant pbs) (hguard : pushGuard pbs s b) :
    pbInvariant (pushStep id cap set_idx s pbs b) ∧
    (∀ b2, b2 ≠ b →
      (pushStep id cap set_idx s pbs b).find? (fun x => x.lot == b2)
        = pbs.find? (fun x => x.lot == b2)) := by
  unfold pushStep
  dsimp only
  by_cases hfound : (pbs.find? (fun pb => pb.lot == b)).isSome = true
  · rw [if_pos hfound]
    obtain ⟨y, hy⟩ := Option.isSome_iff_exists.mp hfound
    have hylot : y.lot = b := by
      have h2 := List.find?_some hy
      rwa [beq_iff_eq] at h2
    constructor
    · intro e he
      rcases updateFirst_mem _ _ pbs e he with h2 | ⟨y2, hy2, hfe⟩
      · exact hinv e h2
      · rw [hy] at hy2
        cases Option.some.inj hy2
        subst hfe
        intro r hr
        show optGt (r.data.get_personal_best y.lot)
          (headProj y.lot (pushFront cap y.sets
            { workout_id := id, set_idx := set_idx, data := s })) = false
        unfold pushFront at hr ⊢
        cases cap with
        | zero => cases hr
        | succ n =>
          rw [List.take_succ_cons] at hr ⊢
          rw [show headProj y.lot ({ workout_id := id, set_idx := set_idx, data := s }
              :: y.sets.take n) = s.get_personal_best y.lot from rfl]
          cases hr with
          | head => exact optGt_self_eq_false _
          | tail _ hr2 =>
            have hry : r ∈ y.sets := List.mem_of_mem_take hr2
            have hrinv := hinv y (List.mem_of_find?_eq_some hy) r hry
            cases hsets : y.sets with
            | nil => rw [hsets] at hry; cases hry
            | cons h0 tl =>
              rw [hsets] at hrinv
              have hhead : headProj y.lot (h0 :: tl) = h0.data.get_personal_best y.lot := rfl
              rw [hhead] at hrinv
              have hpr : possibleRecord pbs b = some h0 := by
                unfold possibleRecord
                rw [hy]
                show y.sets.head? = some h0
                rw [hsets]
                rfl
              have hg2 : optGt (s.get_personal_best y.lot)
                  (h0.data.get_personal_best y.lot) = true := by
                rw [hylot]
                unfold pushGuard at hguard
                rw [hpr] at hguard
                exact hguard
              exact optGt_false_of_le_of_gt _ _ _ hrinv hg2
    · intro b2 hne
      exact find?_lot_updateFirst
        (fun record => { record with sets := pushFront cap record.sets ⟨id, set_idx, s⟩ })
        (fun y2 => rfl) b b2 hne pbs
  · rw [if_neg hfound]
    constructor
    · intro e he
      rcases List.mem_append.mp he with h2 | h2
      · exact hinv e h2
      · rw [List.mem_singleton.mp h2]
        intro r hr
        rw [List.mem_singleton.mp hr]
        exact optGt_self_eq_false _
    · intro b2 hne
      exact find?_lot_append pbs _ b2 (fun hcon => hne hcon.symm)

theorem pushFold_invariant (id : String) (cap : Nat) :
    ∀ (T : List (Nat × WorkoutSetRecord × WorkoutSetPersonalBest))
      (pbs : List UserToExerciseBestSetExtraInformation),
      pbInvariant pbs →
      (T.map (fun t => t.2.2)).Nodup →
      (∀ t ∈ T, pushGuard pbs t.2.1 t.2.2) →
      pbInvariant (T.foldl (fun pbs t => pushStep id cap t.1 t.2.1 pbs t.2.2) pbs) := by
  intro T
  induction T with
  | nil => exact fun pbs h _ _ => h
  | cons t ts ih =>
    intro pbs hinv hnd hg
    rw [List.map_cons, List.nodup_cons] at hnd
    rw [List.foldl_cons]
    have hstep := pushStep_invariant id cap t.1 t.2.1 pbs t.2.2 hinv
      (hg t (List.mem_cons_self t ts))
    apply ih _ hstep.1 hnd.2
    intro t2 ht2
    have hne : t2.2.2 ≠ t.2.2 := by
      intro hcon
      exact hnd.1 (by rw [← hcon]; exact List.mem_map_of_mem (fun x => x.2.2) ht2)
    unfold pushGuard possibleRecord
    rw [hstep.2 t2.2.2 hne]
    exact hg t2 (List.mem_cons_of_mem t ht2)

theorem pushPhase_eq_flat (id : String) (cap : Nat) :
    ∀ (L : List (Nat × WorkoutSetRecord))
      (pbs : List UserToExerciseBestSetExtraInformation),
      L.foldl (fun pbs p => p.2.personal_bests.foldl (pushStep id cap p.1 p.2) pbs) pbs
        = (L.flatMap (fun p => p.2.personal_bests.map (fun b => (p.1, p.2, b)))).foldl
            (fun pbs t => pushStep id cap t.1 t.2.1 pbs t.2.2) pbs := by
  intro L
  induction L with
  | nil => intro pbs; rfl
  | cons p ps ih =>
    intro pbs
    rw [List.foldl_cons, List.flatMap_cons, List.foldl_append, List.foldl_map]
    exact ih _

theorem mem_flatten_set_append {β : Type} (x : β) :
    ∀ (tl : List (List β)) (n : Nat) (old : List β) (y : β),
      tl.get? n = some old →
      y ∈ (tl.set n (old ++ [x])).flatten → y ∈ tl.flatten ∨ y = x := by
  intro tl n old y hget hy
  rcases List.mem_flatten.mp hy with ⟨l, hl, hyl⟩
  rcases List.mem_or_eq_of_mem_set hl with h2 | h2
  · exact Or.inl (List.mem_flatten.mpr ⟨l, h2, hyl⟩)
  · subst h2
    rcases List.mem_append.mp hyl with h3 | h3
    · exact Or.inl (List.mem_flatten.mpr ⟨old, List.get?_mem hget, h3⟩)
    · exact Or.inr (List.mem_singleton.mp h3)

theorem nodup_flatten_set_append {β : Type} (x : β) :
    ∀ (ls : List (List β)) (idx : Nat) (old : List β),
      ls.get? idx = some old →
      ls.flatten.Nodup → x ∉ ls.flatten →
      ((ls.set idx (old ++ [x])).flatten).Nodup := by
  intro ls
  induction ls with
  | nil => intro idx old h; cases h
  | cons hd tl ih =>
    intro idx old hget hnd hx
    cases idx with
    | zero =>
      obtain rfl : hd = old := Option.some.inj hget
      show ((hd ++ [x]) :: tl).flatten.Nodup
      rw [List.flatten_cons, List.append_assoc, List.singleton_append]
      have hsrc : (x :: (hd ++ tl.flatten)).Nodup := by
        rw [List.nodup_cons]
        exact ⟨hx, hnd⟩
      exact List.perm_middle.symm.nodup hsrc
    | succ n =>
      show (hd :: tl.set n (old ++ [x])).flatten.Nodup
      rw [List.flatten_cons]
      rw [List.flatten_cons, List.nodup_append] at hnd
      have hx2 : x ∉ tl.flatten := fun hcon =>
        hx (by rw [List.flatten_cons]; exact List.mem_append.mpr (Or.inr hcon))
      rw [List.nodup_append]
      refine ⟨hnd.1, ih n old hget hnd.2.1 hx2, ?_⟩
      intro a ha hacon
      rcases mem_flatten_set_append x tl n old a hget hacon with h2 | h2
      · exact hnd.2.2 ha h2
      · subst h2
        exact hx (by rw [List.flatten_cons]; exact List.mem_append.mpr (Or.inl ha))

theorem get_personal_best_set_bests (s : WorkoutSetRecord)
    (x : List WorkoutSetPersonalBest) (b : WorkoutSetPersonalBest) :
    ({ s with personal_bests := x } : WorkoutSetRecord).get_personal_best b
      = s.get_personal_best b := rfl

theorem tagStep_props (pbs0 : List UserToExerciseBestSetExtraInformation)
    (acc : List WorkoutSetRecord × WorkoutTotalMeasurement)
    (t : WorkoutSetPersonalBest) (rest : List WorkoutSetPersonalBest)
    (hJ1 : ∀ s ∈ acc.1, ∀ b ∈ s.personal_bests, b ∉ t :: rest ∧ pushGuard pbs0 s b)
    (hJ2 : ((acc.1.map (fun s => s.personal_bests)).flatten).Nodup)
    (htrest : t ∉ rest) :
    (∀ s ∈ (tagStep pbs0 acc t).1, ∀ b ∈ s.personal_bests,
      b ∉ rest ∧ pushGuard pbs0 s b) ∧
    (((tagStep pbs0 acc t).1.map (fun s => s.personal_bests)).flatten).Nodup := by
  have hweak : ∀ s ∈ acc.1, ∀ b ∈ s.personal_bests, b ∉ rest ∧ pushGuard pbs0 s b :=
    fun s hs b hb =>
      ⟨fun hbr => (hJ1 s hs b hb).1 (List.mem_cons_of_mem t hbr), (hJ1 s hs b hb).2⟩
  have htnotin : t ∉ (acc.1.map (fun s => s.personal_bests)).flatten := by
    intro hcon
    rcases List.mem_flatten.mp hcon with ⟨l, hl, htl⟩
    rcases List.mem_map.mp hl with ⟨s, hs, hsl⟩
    subst hsl
    exact (hJ1 s hs t htl).1 (List.mem_cons_self t rest)
  unfold tagStep
  dsimp only
  cases hget : acc.1.get? ((get_index_of_highest_pb acc.1 t).getD 0) with
  | none => exact ⟨hweak, hJ2⟩
  | some set =>
    dsimp only
    by_cases hcond : is_new_record (set.get_personal_best t)
        ((possibleRecord pbs0 t).map (fun r => r.data.get_personal_best t)) = true
    · rw [if_pos hcond]
      constructor
      · intro s hs b hb
        rcases List.mem_or_eq_of_mem_set hs with h2 | h2
        · exact hweak s h2 b hb
        · subst h2
          rcases List.mem_append.mp hb with h3 | h3
          · exact hweak set (List.get?_mem hget) b h3
          · rw [List.mem_singleton.mp h3]
            exact ⟨htrest, hcond⟩
      · rw [List.map_set]
        apply nodup_flatten_set_append t (acc.1.map fun s => s.personal_bests) _
          set.personal_bests ?_ hJ2 htnotin
        rw [List.get?_map, hget]
        rfl
    · rw [if_neg hcond]
      exact ⟨hweak, hJ2⟩

theorem tagFold_props (pbs0 : List UserToExerciseBestSetExtraInformation) :
    ∀ (ts : List WorkoutSetPersonalBest)
      (acc : List WorkoutSetRecord × WorkoutTotalMeasurement),
      ts.Nodup →
      (∀ s ∈ acc.1, ∀ b ∈ s.personal_bests, b ∉ ts ∧ pushGuard pbs0 s b) →
      ((acc.1.map (fun s => s.personal_bests)).flatten).Nodup →
      (∀ s ∈ (ts.foldl (tagStep pbs0) acc).1, ∀ b ∈ s.personal_bests,
        pushGuard pbs0 s b) ∧
      (((ts.foldl (tagStep pbs0) acc).1.map (fun s => s.personal_bests)).flatten).Nodup := by
  intro ts
  induction ts with
  | nil =>
    intro acc _ hJ1 hJ2
    exact ⟨fun s hs b hb => (hJ1 s hs b hb).2, hJ2⟩
  | cons t rest ih =>
    intro acc hnd hJ1 hJ2
    rw [List.nodup_cons] at hnd
    rw [List.foldl_cons]
    have hprops := tagStep_props pbs0 acc t rest hJ1 hJ2 hnd.1
    exact ih (tagStep pbs0 acc t) hnd.2 hprops.1 hprops.2

theorem processSets_bests (unit_system : UserUnitSystem) (lot : ExerciseLot) :
    ∀ (sets : List UserWorkoutSetRecord)
      (acc : WorkoutTotalMeasurement × List WorkoutSetRecord),
      (∀ s ∈ acc.2, s.personal_bests = []) →
      ∀ s ∈ (sets.foldl (processSetsStep unit_system lot) acc).2,
        s.personal_bests = [] := by
  intro sets
  induction sets with
  | nil => exact fun acc h => h
  | cons x xs ih =>
    intro acc h
    rw [List.foldl_cons]
    apply ih
    intro s hs
    unfold processSetsStep at hs
    dsimp only at hs
    rcases List.mem_append.mp hs with h2 | h2
    · exact h s h2
    · rw [List.mem_singleton.mp h2]

theorem triples_map_lot :
    ∀ (L : List (Nat × WorkoutSetRecord)),
      ((L.flatMap (fun p => p.2.personal_bests.map (fun b => (p.1, p.2, b)))).map
          (fun t => t.2.2))
        = (L.map (fun p => p.2.personal_bests)).flatten := by
  intro L
  induction L with
  | nil => rfl
  | cons p ps ih =>
    rw [List.flatMap_cons, List.map_append, List.map_cons, List.flatten_cons, ih,
      List.map_map]
    congr 1
    show p.2.personal_bests.map (fun b => b) = p.2.personal_bests
    exact List.map_id _

theorem enum_map_bests (sets : List WorkoutSetRecord) :
    sets.enum.map (fun p => p.2.personal_bests) = sets.map (fun s => s.personal_bests) := by
  rw [show (fun p : Nat × WorkoutSetRecord => p.2.personal_bests)
      = (fun s : WorkoutSetRecord => s.personal_bests) ∘ Prod.snd from rfl,
    ← List.map_map, List.enum_map_snd]

theorem mem_triples (t : Nat × WorkoutSetRecord × WorkoutSetPersonalBest)
    (sets : List WorkoutSetRecord)
    (ht : t ∈ sets.enum.flatMap (fun p => p.2.personal_bests.map (fun b => (p.1, p.2, b)))) :
    t.2.1 ∈ sets ∧ t.2.2 ∈ t.2.1.personal_bests := by
  rcases List.mem_flatMap.mp ht with ⟨p, hp, htp⟩
  rcases List.mem_map.mp htp with ⟨b, hb, hbt⟩
  subst hbt
  refine ⟨?_, hb⟩
  have h2 : p.2 ∈ sets.enum.map Prod.snd := List.mem_map_of_mem Prod.snd hp
  rwa [List.enum_map_snd] at h2

theorem pushPhase_invariant (id : String) (cap : Nat)
    (sets : List WorkoutSetRecord) (pbs0 : List UserToExerciseBestSetExtraInformation)
    (hinv : pbInvariant pbs0)
    (hnd : ((sets.map (fun s => s.personal_bests)).flatten).Nodup)
    (hguard : ∀ s ∈ sets, ∀ b ∈ s.personal_bests, pushGuard pbs0 s b) :
    pbInvariant (pushPhase id cap sets pbs0) := by
  unfold pushPhase
  rw [pushPhase_eq_flat]
  apply pushFold_invariant id cap _ pbs0 hinv
  · rw [triples_map_lot, enum_map_bests]
    exact hnd
  · intro t ht
    have hm := mem_triples t sets ht
    exact hguard t.2.1 hm.1 t.2.2 hm.2

theorem flatten_nil_of_all_nil {α β : Type} (f : α → List β) :
    ∀ L : List α, (∀ s ∈ L, f s = []) → ((L.map f).flatten) = [] := by
  intro L
  induction L with
  | nil => intro _; rfl
  | cons a as ih =>
    intro h
    rw [List.map_cons, List.flatten_cons, h a (List.mem_cons_self a as), List.nil_append]
    exact ih (fun s hs => h s (List.mem_cons_of_mem a hs))

theorem upsertAssociation_invariant (user_id : Int) (ex_id : Nat)
    (hi : UserToExerciseHistoryExtraInformation) (db : DB)
    (h : dbPbInvariant db) :
    dbPbInvariant (upsertAssociation user_id ex_id hi db).1 ∧
    pbInvariant (((upsertAssociation user_id ex_id hi db).2.exercise_extra_information).getD
      UserToExerciseExtraInformation.default).personal_bests := by
  unfold upsertAssociation
  cases hfind : db.associations.find? (assocKeyFor user_id ex_id) with
  | none =>
    dsimp only
    constructor
    · intro a ha ei hei
      rcases List.mem_append.mp ha with h2 | h2
      · exact h a h2 ei hei
      · cases List.mem_singleton.mp h2
        cases Option.some.inj hei
        intro e he
        cases he
    · intro e he
      cases he
  | some e =>
    dsimp only
    have hemem := List.mem_of_find?_eq_some hfind
    have hpb : pbInvariant ((e.exercise_extra_information.getD
        UserToExerciseExtraInformation.default).personal_bests) := by
      cases hei : e.exercise_extra_information with
      | none =>
        intro x hx
        exact absurd hx (List.not_mem_nil x)
      | some ei =>
        exact h e hemem ei hei
    constructor
    · intro a ha ei2 hei2
      rcases updateFirst_mem _ _ db.associations a ha with h2 | ⟨y, hy, hfy⟩
      · exact h a h2 ei2 hei2
      · rw [hfind] at hy
        cases Option.some.inj hy
        subst hfy
        cases Option.some.inj hei2
        exact hpb
    · exact hpb

theorem types_of_prs_nodup (lot : ExerciseLot) : (types_of_prs lot).Nodup := by
  cases lot <;> decide

theorem processExercise_dbPbInvariant (user_id : Int) (id : String)
    (preferences : UserExercisePreferences) (db : DB) (idx : Nat)
    (ex : UserExerciseInput) (h : dbPbInvariant db) :
    dbPbInvariant (processExercise user_id id preferences db idx ex).1 := by
  unfold processExercise
  cases hfind : db.exercises.find? (fun e => e.id == ex.exercise_id) with
  | none => exact h
  | some db_ex =>
    dsimp only
    have hup := upsertAssociation_invariant user_id ex.exercise_id
      { workout_id := id, idx := idx } db h
    have hsets0 : ∀ s ∈ (ex.sets.foldl (processSetsStep preferences.unit_system db_ex.lot)
        (WorkoutTotalMeasurement.default, [])).2, s.personal_bests = [] :=
      processSets_bests preferences.unit_system db_ex.lot ex.sets
        (WorkoutTotalMeasurement.default, []) (fun s hs => absurd hs (List.not_mem_nil s))
    have htag := tagFold_props
      (((upsertAssociation user_id ex.exercise_id { workout_id := id, idx := idx }
          db).2.exercise_extra_information.getD
        UserToExerciseExtraInformation.default).personal_bests)
      (types_of_prs db_ex.lot)
      ((ex.sets.foldl (processSetsStep preferences.unit_system db_ex.lot)
          (WorkoutTotalMeasurement.default, [])).2,
        (ex.sets.foldl (processSetsStep preferences.unit_system db_ex.lot)
          (WorkoutTotalMeasurement.default, [])).1)
      (types_of_prs_nodup db_ex.lot)
      (fun s hs b hb => absurd (by rw [hsets0 s hs] at hb; exact hb) (List.not_mem_nil b))
      (by rw [flatten_nil_of_all_nil _ _ hsets0]; exact List.nodup_nil)
    have hpush := pushPhase_invariant id preferences.save_history _ _ hup.2 htag.2 htag.1
    intro a ha ei hei
    rcases updateFirst_mem _ _ _ a ha with h2 | ⟨y, hy, hfy⟩
    · exact hup.1 a h2 ei hei
    · subst hfy
      cases Option.some.inj hei
      exact hpush

theorem commitGo_dbPbInvariant (user_id : Int) (id : String)
    (preferences : UserExercisePreferences) (input : UserWorkoutInput) :
    ∀ (l : List UserExerciseInput) (db : DB)
      (exercises : List (ExerciseLot × ProcessedExercise))
      (workout_totals : List WorkoutTotalMeasurement) (idx : Nat),
      dbPbInvariant db →
      dbPbInvariant
        (commitGo user_id id preferences input db exercises workout_totals idx l).1 := by
  intro l
  induction l with
  | nil => exact fun db exercises workout_totals idx h => h
  | cons ex rest ih =>
    intro db exercises workout_totals idx h
    rw [commitGo]
    by_cases hlen : ex.sets.length = 0
    · rw [if_pos hlen]
      exact h
    · rw [if_neg hlen]
      have hpe := processExercise_dbPbInvariant user_id id preferences db idx ex h
      cases hres : processExercise user_id id preferences db idx ex with
      | mk db2 o =>
        rw [hres] at hpe
        cases o with
        | none => exact ih db2 exercises workout_totals (idx + 1) hpe
        | some pe =>
          exact ih db2 (exercises ++ [pe]) (workout_totals ++ [pe.2.total]) (idx + 1) hpe

/-- C9 (implicit invariant): for every association row of the database, every
per-category PR entry keeps a first element whose projection is maximal — no
stored record strictly beats it — and one run of the commit engine preserves
this across the whole database. The engine compares a candidate only against
the first stored record (`possibleRecord` takes `sets.head?`), so this is
exactly the invariant its correctness rests on. -/
theorem C9_pb_head_invariant (input : UserWorkoutInput) (user_id : Int)
    (db : DB) (id : String) (preferences : UserExercisePreferences)
    (h : dbPbInvariant db) :
    ∀ a ∈ (calculate_and_commit input user_id db id preferences).1.associations,
      ∀ ei, a.exercise_extra_information = some ei →
        ∀ e ∈ ei.personal_bests, ∀ r ∈ e.sets,
          optGt (r.data.get_personal_best e.lot) (headProj e.lot e.sets) = false := by
  have hmain : dbPbInvariant (calculate_and_commit input user_id db id preferences).1 := by
    unfold calculate_and_commit
    by_cases hlen : input.exercises.length = 0
    · rw [if_pos hlen]
      exact h
    · rw [if_neg hlen]
      exact commitGo_dbPbInvariant user_id id preferences input input.exercises db [] [] 0 h
  exact hmain

/-- Witness for `C9_pb_head_invariant`: the fresh benchmark database satisfies
the invariant (it has no association rows), and the commit of the scenario
workout onto it — which creates an association row with real PR entries —
still satisfies it. -/
theorem C9_pb_head_invariant_witness :
    dbPbInvariant dbBench ∧
    (∀ a ∈ (calculate_and_commit benchInput 1 dbBench "w1" (metricPrefs 3)).1.associations,
      ∀ ei, a.exercise_extra_information = some ei →
        ∀ e ∈ ei.personal_bests, ∀ r ∈ e.sets,
          optGt (r.data.get_personal_best e.lot) (headProj e.lot e.sets) = false) := by
  have hinv : dbPbInvariant dbBench := by
    intro a ha
    simp [dbBench] at ha
  exact ⟨hinv, C9_pb_head_invariant benchInput 1 dbBench "w1" (metricPrefs 3) hinv⟩

/-- Witness for `C6_delete_workout` on the concrete one-row database. -/
theorem C6_delete_workout_witness :
    (delete_existing c6w c6db 1).associations
      = c6db.associations.map (fun a =>
          match (c6w.information.exercises.enum).find?
              (fun p => a.user_id == 1 && a.exercise_id == some p.2.id) with
          | some p => deleteAssocUpdate c6w p.1 a
          | none => a) ∧
    (deleteAssocUpdate c6w 0 c6assoc).num_times_interacted
        = c6assoc.num_times_interacted - 1 ∧
    (deleteAssocUpdate c6w 0 c6assoc).exercise_extra_information
        = some { c6ei with history := c6ei.history.erase ⟨c6w.id, 0⟩ } :=
  ⟨(C6_delete_workout c6w c6db 1 (by simp [c6w]) (by simp [c6db])).1,
    ((C6_delete_workout c6w c6db 1 (by simp [c6w]) (by simp [c6db])).2.2
      0 c6assoc c6ei rfl).1,
    ((C6_delete_workout c6w c6db 1 (by simp [c6w]) (by simp [c6db])).2.2
      0 c6assoc c6ei rfl).2.2.2⟩

end Ryot
